import Mathlib

/-!
Verification of the PageXML data reader
(calamari_ocr/ocr/dataset/datareader/pagexml/reader.py).

Shallow embedding of:
* the region cutter PageXMLReader.cutout (coordinate parsing, bounding-box
  crop, degenerate early return, auto angle selection, auto fill value,
  minimum-bounding-rectangle replacement, polygon mask compositing, final
  crop) — on the angle = 0 path; the cv.warpAffine rotation branch involves
  floating-point resampling and is outside the model,
* the transcription resolution of PageXMLDatasetLoader._samples_gt_from_book,
* the sequential write-back tracker (store_text_prediction / store),
* the per-line image loop of PageXMLReader._load_sample (cutting and padding).

Images are lists of rows of 8-bit pixel values (single channel), or lists of
rows of channel lists (multi channel).  External OpenCV primitives that the
source calls are modelled from the specification text where noted.
-/

namespace PageXML

/-- Decidable equality for Except values, used to evaluate the model at
concrete inputs. -/
instance {ε α : Type} [DecidableEq ε] [DecidableEq α] : DecidableEq (Except ε α) :=
  fun a b =>
  match a, b with
  | .error e, .error f =>
    if h : e = f then .isTrue (by rw [h]) else .isFalse (fun hh => h (Except.error.inj hh))
  | .error _, .ok _ => .isFalse (fun hh => Except.noConfusion hh)
  | .ok _, .error _ => .isFalse (fun hh => Except.noConfusion hh)
  | .ok x, .ok y =>
    if h : x = y then .isTrue (by rw [h]) else .isFalse (fun hh => h (Except.ok.inj hh))

/-- CutMode enum from the source (BOX = 0, POLYGON = 1, MBR = 2). -/
inductive CutMode where
  | BOX
  | POLYGON
  | MBR
deriving DecidableEq

/-- Python int() applied to an exact rational: truncation toward zero. -/
def pyTrunc (q : ℚ) : ℤ := q.num.tdiv (q.den : ℤ)

/-- Whitespace recognized by Python str.split() with no argument. -/
def isPyWs (c : Char) : Bool :=
  c == ' ' || c == '\t' || c == '\n' || c == '\r' || c == '\x0b' || c == '\x0c'

/-- Helper for splitWs: cur is the reversed current token. -/
def splitWsGo (cur : List Char) : List Char → List (List Char)
  | [] => if cur.isEmpty then [] else [cur.reverse]
  | c :: cs =>
    if isPyWs c then
      if cur.isEmpty then splitWsGo [] cs else cur.reverse :: splitWsGo [] cs
    else splitWsGo (c :: cur) cs

/-- Python str.split(): split on whitespace runs, discarding empty tokens. -/
def splitWs (cs : List Char) : List (List Char) := splitWsGo [] cs

/-- Helper for splitComma: cur is the reversed current piece. -/
def splitCommaGo (cur : List Char) : List Char → List (List Char)
  | [] => [cur.reverse]
  | c :: cs =>
    if c = ',' then cur.reverse :: splitCommaGo [] cs else splitCommaGo (c :: cur) cs

/-- Python str.split(a comma): split at every comma, keeping empty pieces. -/
def splitComma (cs : List Char) : List (List Char) := splitCommaGo [] cs

/-- Accumulate decimal digits; none if a non-digit appears. -/
def digitsValGo (acc : ℕ) : List Char → Option ℕ
  | [] => some acc
  | c :: cs => if c.isDigit then digitsValGo (acc * 10 + (c.toNat - 48)) cs else none

/-- Digits of a nonempty token. -/
def parseDigits (cs : List Char) : Except String ℤ :=
  match cs, digitsValGo 0 cs with
  | _ :: _, some n => .ok (n : ℤ)
  | _, _ => .error ("ValueError: invalid literal for int")

/-- Python int(string) on the token forms the PAGE files use: an optional
sign followed by decimal digits; anything else raises ValueError. -/
def parseInt : List Char → Except String ℤ
  | '-' :: cs => (parseDigits cs).map (fun n => -n)
  | '+' :: cs => parseDigits cs
  | cs => parseDigits cs

/-- Lines 283–284: parse one "col,row" token of the coordinate string and
scale it; the source stores (int(scale * int(c[1])), int(scale * int(c[0]))),
swapping the order to (row, col); Python evaluates int(c[1]) first.  A token
with fewer than two comma-separated components raises IndexError; extra
components are ignored. -/
def parsePair (scale : ℚ) (tok : List Char) : Except String (ℤ × ℤ) :=
  match splitComma tok with
  | c0 :: c1 :: _ =>
    match parseInt c1, parseInt c0 with
    | .ok b, .ok a => .ok (pyTrunc (scale * (b : ℚ)), pyTrunc (scale * (a : ℚ)))
    | .error e, _ => .error e
    | _, .error e => .error e
  | _ => .error ("IndexError: list index out of range")

/-- The list comprehension of line 284: parse every token left to right,
stopping at the first failure. -/
def parsePairs (scale : ℚ) : List (List Char) → Except String (List (ℤ × ℤ))
  | [] => .ok []
  | t :: ts =>
    match parsePair scale t, parsePairs scale ts with
    | .ok p, .ok ps => .ok (p :: ps)
    | .error e, _ => .error e
    | _, .error e => .error e

/-- Lines 283–284: the full coordinate-string parse of cutout. -/
def parseCoords (scale : ℚ) (s : String) : Except String (List (ℤ × ℤ)) :=
  parsePairs scale (splitWs s.data)

/-- Minimum of a list of integers (np.amin along axis 0, one component);
only meaningful for nonempty lists. -/
def intsMin : List ℤ → ℤ
  | [] => 0
  | x :: xs => xs.foldl min x

/-- Maximum of a list of integers (np.amax along axis 0, one component). -/
def intsMax : List ℤ → ℤ
  | [] => 0
  | x :: xs => xs.foldl max x

/-- Resolve a (possibly negative) numpy slice endpoint against length n:
negative endpoints count from the end; both are clipped to [0, n]. -/
def npIdx (n : ℕ) (i : ℤ) : ℕ :=
  if i < 0 then ((n : ℤ) + i).toNat.min n else i.toNat.min n

/-- numpy basic slicing xs[l : h] along one axis. -/
def npSlice (l h : ℤ) (xs : List α) : List α :=
  (xs.drop (npIdx xs.length l)).take (npIdx xs.length h - npIdx xs.length l)

/-- numpy basic slicing img[rl : rh, cl : ch] on the leading two axes. -/
def npSlice2 (rl rh cl ch : ℤ) (img : List (List α)) : List (List α) :=
  (npSlice rl rh img).map (npSlice cl ch)

/-- Number of scalar entries of a 2-d array (numpy .size for 2-d). -/
def size2 (img : List (List α)) : ℕ := (img.map List.length).sum

/-- Number of scalar entries of a 3-d array (numpy .size for 3-d). -/
def size3 (img : List (List (List α))) : ℕ := (img.map size2).sum

/-- Row coordinates of the parsed points (first components). -/
def rowsOf (coords : List (ℤ × ℤ)) : List ℤ := coords.map Prod.fst

/-- Column coordinates of the parsed points (second components). -/
def colsOf (coords : List (ℤ × ℤ)) : List ℤ := coords.map Prod.snd

/-- Lines 286–288: axis-aligned bounding-box crop
pageimg[minX : maxX + 1, minY : maxY + 1] of the page image. -/
def bboxCrop (img : List (List α)) (coords : List (ℤ × ℤ)) : List (List α) :=
  npSlice2 (intsMin (rowsOf coords)) (intsMax (rowsOf coords) + 1)
    (intsMin (colsOf coords)) (intsMax (colsOf coords) + 1) img

/-- Closed edge list of a polygon: each vertex to the next, last back to first. -/
def polyEdges (poly : List (ℤ × ℤ)) : List ((ℤ × ℤ) × (ℤ × ℤ)) :=
  poly.zip (poly.drop 1 ++ poly.take 1)

/-- The point p lies on the closed segment from a to b. -/
def OnSeg (a b p : ℤ × ℤ) : Prop :=
  (b.1 - a.1) * (p.2 - a.2) = (b.2 - a.2) * (p.1 - a.1) ∧
  min a.1 b.1 ≤ p.1 ∧ p.1 ≤ max a.1 b.1 ∧ min a.2 b.2 ≤ p.2 ∧ p.2 ≤ max a.2 b.2

instance (a b p : ℤ × ℤ) : Decidable (OnSeg a b p) := by
  unfold OnSeg; infer_instance

/-- The horizontal ray from p to the right strictly crosses edge (a, b);
half-open in the y range so each vertex counts on exactly one of its edges,
with the crossing point strictly to the right of p (exact arithmetic: the
edge abscissa comparison is multiplied out by the edge height). -/
def RayCross (p a b : ℤ × ℤ) : Prop :=
  ((a.2 ≤ p.2 ∧ p.2 < b.2) ∨ (b.2 ≤ p.2 ∧ p.2 < a.2)) ∧
  (if a.2 < b.2
   then 0 < (a.1 - p.1) * (b.2 - a.2) + (p.2 - a.2) * (b.1 - a.1)
   else (a.1 - p.1) * (b.2 - a.2) + (p.2 - a.2) * (b.1 - a.1) < 0)

instance (p a b : ℤ × ℤ) : Decidable (RayCross p a b) := by
  unfold RayCross; infer_instance

/-- Number of polygon edges crossed by the rightward ray from p. -/
def crossCount (poly : List (ℤ × ℤ)) (p : ℤ × ℤ) : ℕ :=
  (polyEdges poly).countP (fun e => decide (RayCross p e.1 e.2))

/-- The point lies on the boundary of the closed polygon. -/
def OnBoundary (poly : List (ℤ × ℤ)) (p : ℤ × ℤ) : Prop :=
  ∃ e ∈ polyEdges poly, OnSeg e.1 e.2 p

instance (poly : List (ℤ × ℤ)) (p : ℤ × ℤ) : Decidable (OnBoundary poly p) :=
  List.decidableBEx _ _

/-- Modelled from the spec: cv.fillPoly builds the mask by a scan-fill
rasterization of the closed polygon (even-odd rule, boundary drawn). -/
def fillPolyTest (poly : List (ℤ × ℤ)) (p : ℤ × ℤ) : Bool :=
  decide (OnBoundary poly p) || decide (crossCount poly p % 2 = 1)

/-- The point is strictly inside the polygon: off the boundary, with an odd
crossing count. -/
def StrictlyInside (poly : List (ℤ × ℤ)) (p : ℤ × ℤ) : Prop :=
  ¬ OnBoundary poly p ∧ crossCount poly p % 2 = 1

/-- The point is strictly outside the polygon: off the boundary, with an even
crossing count. -/
def StrictlyOutside (poly : List (ℤ × ℤ)) (p : ℤ × ℤ) : Prop :=
  ¬ OnBoundary poly p ∧ crossCount poly p % 2 = 0

/-- One 8-bit compositing step of lines 351–357 at a single scalar:
fg = cut AND mask, bg = fill AND NOT mask, out = saturating add
(cv.bitwise_and, cv.bitwise_not and cv.add on uint8; NOT on uint8 is
255 - m). -/
def composite8 (m v cv : ℕ) : ℕ := min 255 ((v &&& m) + (cv &&& (255 - m)))

/-- Lines 350–357 for a single-channel cut: mask pixels outside the polygon
with the fill value; the mask holds 255 inside (and on) the rasterized
polygon and 0 elsewhere. -/
def maskComposite (poly : List (ℤ × ℤ)) (cval : ℕ) (cut : List (List ℕ)) :
    List (List ℕ) :=
  cut.enum.map (fun r => r.2.enum.map (fun c =>
    composite8 (if fillPolyTest poly ((c.1 : ℤ), (r.1 : ℤ)) then 255 else 0) c.2 cval))

/-- Lines 350–357 for a multi-channel cut: the same compositing per channel. -/
def maskCompositeC (poly : List (ℤ × ℤ)) (cval : List ℕ)
    (cut : List (List (List ℕ))) : List (List (List ℕ)) :=
  cut.enum.map (fun r => r.2.enum.map (fun c =>
    List.zipWith
      (fun v cv =>
        composite8 (if fillPolyTest poly ((c.1 : ℤ), (r.1 : ℤ)) then 255 else 0) v cv)
      c.2 cval))

/-- Line 308: np.amax over a 2-d crop (single-channel auto fill value). -/
def amax2 (cut : List (List ℕ)) : ℕ := (cut.map (fun row => row.foldr max 0)).foldr max 0

/-- np.mean over the channel axis at one pixel. -/
def pixMean (px : List ℕ) : ℚ := (px.sum : ℚ) / (px.length : ℚ)

/-- One step of the row-major argmax scan: a strictly larger channel mean
replaces the current best (so ties keep the earlier pixel, as np.argmax
returns the first maximising index). -/
def innerStep (r : ℕ) (b : (ℕ × ℕ) × ℚ) (c : ℕ × List ℕ) : (ℕ × ℕ) × ℚ :=
  if pixMean c.2 > b.2 then ((r, c.1), pixMean c.2) else b

/-- Scan one indexed row of the crop. -/
def outerStep (best : (ℕ × ℕ) × ℚ) (r : ℕ × List (List ℕ)) : (ℕ × ℕ) × ℚ :=
  r.2.enum.foldl (innerStep r.1) best

/-- Lines 310–311: np.unravel_index(np.argmax(np.mean(cut, axis=2)), ...):
the first pixel position, in row-major order, whose channel mean is maximal. -/
def argmaxMean (cut : List (List (List ℕ))) : ℕ × ℕ :=
  (cut.enum.foldl outerStep ((0, 0), pixMean ((cut.headD []).headD []))).1

/-- Line 311: the channel vector of the pixel selected by argmaxMean. -/
def autoCvalC (cut : List (List (List ℕ))) : List ℕ :=
  (cut.getD (argmaxMean cut).1 []).getD (argmaxMean cut).2 []

/-- Lines 295–303: the rotation angle actually used.  angle = none is the
unspecified (auto) case.  mbrAngle stands for the orientation mbr[2] that
cv.minAreaRect (external library) reports for the translated polygon. -/
def resolveAngle (angle : Option ℚ) (maxAutoAngle : ℚ) (mbrAngle : ℚ) : ℚ :=
  match angle with
  | some a => a
  | none =>
    if 0 < maxAutoAngle then
      let a := if 45 < mbrAngle then mbrAngle - 90 else mbrAngle
      if maxAutoAngle < |a| then 0 else a
    else 0

/-- Projection of a point onto direction d. -/
def projU (d p : ℤ × ℤ) : ℤ := d.1 * p.1 + d.2 * p.2

/-- Projection of a point onto the normal of direction d. -/
def projV (d p : ℤ × ℤ) : ℤ := d.1 * p.2 - d.2 * p.1

/-- Area of the bounding rectangle of pts oriented along direction d. -/
def rectArea (d : ℤ × ℤ) (pts : List (ℤ × ℤ)) : ℚ :=
  (((intsMax (pts.map (projU d)) - intsMin (pts.map (projU d))) *
    (intsMax (pts.map (projV d)) - intsMin (pts.map (projV d))) : ℤ) : ℚ) /
  ((d.1 * d.1 + d.2 * d.2 : ℤ) : ℚ)

/-- Candidate directions for the minimum-area rectangle: differences of all
pairs of input points (every convex-hull edge is such a pair, and the minimum
over all directions is attained at a hull edge). -/
def dirCandidates (pts : List (ℤ × ℤ)) : List (ℤ × ℤ) :=
  (pts.flatMap (fun p => pts.map (fun q => (q.1 - p.1, q.2 - p.2)))).filter
    (fun d => d ≠ ((0 : ℤ), (0 : ℤ)))

/-- Map a (u, v) projection pair back to the plane, for direction d. -/
def uvCorner (d : ℤ × ℤ) (u v : ℤ) : ℚ × ℚ :=
  (((u * d.1 - v * d.2 : ℤ) : ℚ) / ((d.1 * d.1 + d.2 * d.2 : ℤ) : ℚ),
   ((u * d.2 + v * d.1 : ℤ) : ℚ) / ((d.1 * d.1 + d.2 * d.2 : ℤ) : ℚ))

/-- Modelled from the spec: cv.minAreaRect followed by
cv.boxPoints(...).astype(int) (lines 346–347), both external library calls:
the four corner points of a minimum-area bounding rectangle of the points,
truncated toward zero to integers (numpy astype(int)).  The best direction is
searched over all point pairs; with no nonzero direction (at most one distinct
point) the rectangle degenerates to that point, repeated four times. -/
def mbrBoxPoints (pts : List (ℤ × ℤ)) : List (ℤ × ℤ) :=
  match dirCandidates pts with
  | [] => List.replicate 4 (pts.headD (0, 0))
  | d0 :: ds =>
    let best := ds.foldl (fun b d => if rectArea d pts < rectArea b pts then d else b) d0
    let u0 := intsMin (pts.map (projU best))
    let u1 := intsMax (pts.map (projU best))
    let v0 := intsMin (pts.map (projV best))
    let v1 := intsMax (pts.map (projV best))
    [uvCorner best u0 v0, uvCorner best u1 v0, uvCorner best u1 v1,
      uvCorner best u0 v1].map (fun c => (pyTrunc c.1, pyTrunc c.2))

/-- Shallow embedding of PageXMLReader.cutout (lines 283–359) after the
coordinate parse, on a single-channel (2-d, uint8) page image.  The rotation
branch (cv.warpAffine, floating-point resampling) is outside the model and
yields an error value; every theorem below stays on the angle = 0 path.
mbrAngle is the orientation cv.minAreaRect would report for the translated
polygon, used only by the auto-angle rule. -/
def cutoutCore (img : List (List ℕ)) (coords : List (ℤ × ℤ)) (mode : CutMode)
    (angle : Option ℚ) (maxAutoAngle : ℚ) (cval : Option ℕ) (mbrAngle : ℚ) :
    Except String (List (List ℕ)) :=
  match coords with
  | [] => .error ("ValueError: zero-size array to reduction operation maximum")
  | _ :: _ =>
    let minX := intsMin (rowsOf coords)
    let maxX := intsMax (rowsOf coords)
    let minY := intsMin (colsOf coords)
    let maxY := intsMax (colsOf coords)
    let cut := npSlice2 minX (maxX + 1) minY (maxY + 1) img
    if size2 cut = 0 then .ok cut
    else
      let coords1 := coords.map (fun p => (p.1 - minX, p.2 - minY))
      let maxX1 := maxX - minX
      let maxY1 := maxY - minY
      let angleR := resolveAngle angle maxAutoAngle mbrAngle
      let cvalV := cval.getD (amax2 cut)
      if angleR ≠ 0 then .error ("cv.warpAffine rotation not modelled")
      else
        let coordsXY := coords1.map (fun p => (p.2, p.1))
        let coords2 := if mode = CutMode.MBR then mbrBoxPoints coordsXY else coordsXY
        let cut2 :=
          if mode = CutMode.POLYGON ∨ mode = CutMode.MBR then
            maskComposite coords2 cvalV cut
          else cut
        .ok (npSlice2 0 (maxX1 + 1) 0 (maxY1 + 1) cut2)

/-- cutout on a multi-channel (3-d, uint8) page image: identical control flow,
with the multi-channel auto fill value and per-channel compositing. -/
def cutoutCoreC (img : List (List (List ℕ))) (coords : List (ℤ × ℤ)) (mode : CutMode)
    (angle : Option ℚ) (maxAutoAngle : ℚ) (cval : Option (List ℕ)) (mbrAngle : ℚ) :
    Except String (List (List (List ℕ))) :=
  match coords with
  | [] => .error ("ValueError: zero-size array to reduction operation maximum")
  | _ :: _ =>
    let minX := intsMin (rowsOf coords)
    let maxX := intsMax (rowsOf coords)
    let minY := intsMin (colsOf coords)
    let maxY := intsMax (colsOf coords)
    let cut := npSlice2 minX (maxX + 1) minY (maxY + 1) img
    if size3 cut = 0 then .ok cut
    else
      let coords1 := coords.map (fun p => (p.1 - minX, p.2 - minY))
      let maxX1 := maxX - minX
      let maxY1 := maxY - minY
      let angleR := resolveAngle angle maxAutoAngle mbrAngle
      let cvalV := cval.getD (autoCvalC cut)
      if angleR ≠ 0 then .error ("cv.warpAffine rotation not modelled")
      else
        let coordsXY := coords1.map (fun p => (p.2, p.1))
        let coords2 := if mode = CutMode.MBR then mbrBoxPoints coordsXY else coordsXY
        let cut2 :=
          if mode = CutMode.POLYGON ∨ mode = CutMode.MBR then
            maskCompositeC coords2 cvalV cut
          else cut
        .ok (npSlice2 0 (maxX1 + 1) 0 (maxY1 + 1) cut2)

/-- PageXMLReader.cutout on a single-channel image: parse the coordinate
string (lines 283–284), then run the geometric core. -/
def cutout (img : List (List ℕ)) (coordstring : String) (mode : CutMode)
    (angle : Option ℚ) (maxAutoAngle : ℚ) (cval : Option ℕ) (scale : ℚ)
    (mbrAngle : ℚ) : Except String (List (List ℕ)) :=
  (parseCoords scale coordstring).bind
    (fun coords => cutoutCore img coords mode angle maxAutoAngle cval mbrAngle)

/-- One TextEquiv element: its optional index attribute and its optional
Unicode child, whose text is itself optional (lxml reads an empty tag text as
None). -/
structure TextEquivE where
  index : Option ℤ
  unicode : Option (Option String)
deriving DecidableEq

/-- Lines 101–105: the text read from one TextEquiv: the Unicode child's
text, with a missing child or an empty tag handled as the empty string. -/
def uniText (te : TextEquivE) : String :=
  match te.unicode with
  | none => ""
  | some none => ""
  | some (some s) => s

/-- Lines 88–108: resolve a text line's transcription against the configured
text index: prefer TextEquiv elements whose index attribute equals it; if
none matches, fall back to the elements with no index attribute at all; take
the first candidate; with no candidate, the text is absent (None). -/
def resolveText (textIndex : ℤ) (tes : List TextEquivE) : Option String :=
  let tequivs := tes.filter (fun te => te.index = some textIndex)
  let tequivs2 :=
    if tequivs.isEmpty then tes.filter (fun te => te.index = none) else tequivs
  match tequivs2 with
  | [] => none
  | l :: _ => some (uniText l)

/-- One TextLine element of a page tree, for the write-back tracker. -/
structure LineE where
  lid : String
  tequivs : List TextEquivE
deriving DecidableEq

/-- One page tree owned by the reader (self.pages entry). -/
structure PageE where
  pid : String
  lines : List LineE
deriving DecidableEq

/-- The write-back tracker state: the in-memory page trees, the last page id
seen (line 251), and the pages serialized so far, in flush order. -/
structure TrackerState where
  pages : List PageE
  lastPageId : Option String
  flushed : List PageE
deriving DecidableEq

/-- Lines 368–376: find the first TextEquiv with the configured index,
creating one at the end of the children if absent (etree.SubElement appends),
and set its Unicode text to the predicted sentence. -/
def updateFirstTE (ti : ℤ) (s : String) : List TextEquivE → List TextEquivE
  | [] => [⟨some ti, some (some s)⟩]
  | te :: rest =>
    if te.index = some ti then { te with unicode := some (some s) } :: rest
    else te :: updateFirstTE ti s rest

/-- Attach the sentence to the line with the given id. -/
def setLineText (ti : ℤ) (lid s : String) (lns : List LineE) : List LineE :=
  lns.map (fun ln =>
    if ln.lid = lid then { ln with tequivs := updateFirstTE ti s ln.tequivs } else ln)

/-- Attach the sentence to the line within its owning page. -/
def setPageText (ti : ℤ) (pid lid s : String) (pages : List PageE) : List PageE :=
  pages.map (fun pg =>
    if pg.pid = pid then { pg with lines := setLineText ti lid s pg.lines } else pg)

/-- self.pages[page_id] as a sublist (the reader keys pages by page id). -/
def findPage (pages : List PageE) (pid : String) : List PageE :=
  pages.filter (fun pg => pg.pid = pid)

/-- Lines 364–382: store_text_prediction.  Attach the sentence to its line,
then — if the incoming page id differs from the tracked one — flush the
previously tracked page (when truthy: not None and not empty) and track the
new page id. -/
def storeTextPrediction (ti : ℤ) (st : TrackerState) (pid lid sentence : String) :
    TrackerState :=
  let pages := setPageText ti pid lid sentence st.pages
  if st.lastPageId ≠ some pid then
    match st.lastPageId with
    | some old =>
      if old ≠ "" then
        { pages := pages, lastPageId := some pid,
          flushed := st.flushed ++ findPage pages old }
      else { pages := pages, lastPageId := some pid, flushed := st.flushed }
    | none => { pages := pages, lastPageId := some pid, flushed := st.flushed }
  else { st with pages := pages }

/-- Lines 391–395: the store() end-of-stream call in its tracked-page branch
(lastPageId truthy): flush the tracked page and reset the tracker.  The
untracked branch (lines 396–404) re-serializes every page and is not
modelled (it is never reached after a nonempty sequential prediction run). -/
def storeFinal (st : TrackerState) : TrackerState :=
  match st.lastPageId with
  | some p =>
    if p ≠ "" then
      { pages := st.pages, lastPageId := none,
        flushed := st.flushed ++ findPage st.pages p }
    else st
  | none => st

/-- np.pad pad-width broadcast on a 2-d array for the flat list forms a
PageXML pad configuration uses: [p] pads every side by p; [a, b] pads by a
before and b after on both axes.  Nested pad-width forms are not used by the
reader's configuration surface and are not modelled. -/
def padWidths (pad : List ℕ) : (ℕ × ℕ) × (ℕ × ℕ) :=
  match pad with
  | [p] => ((p, p), (p, p))
  | [a, b] => ((a, b), (a, b))
  | _ => ((0, 0), (0, 0))

/-- np.pad in constant mode on a 2-d array. -/
def npPad2 (pw : (ℕ × ℕ) × (ℕ × ℕ)) (cval : ℕ) (img : List (List ℕ)) :
    List (List ℕ) :=
  let wid := (img.headD []).length + pw.2.1 + pw.2.2
  List.replicate pw.1.1 (List.replicate wid cval) ++
    img.map (fun row =>
      List.replicate pw.2.1 cval ++ row ++ List.replicate pw.2.2 cval) ++
    List.replicate pw.1.2 (List.replicate wid cval)

/-- Python float modulo (result carries the divisor's sign), exactly on
rationals. -/
def qmod (a b : ℚ) : ℚ := a - b * ⌊a / b⌋

/-- Line 441: angle = orientation if orientation and orientation % 360 != 0
else 0. -/
def orientationAngle (o : ℚ) : ℚ := if o ≠ 0 ∧ qmod o 360 ≠ 0 then o else 0

/-- One text line record as _load_sample consumes it: the Coords points
string, the enclosing region's orientation, and the declared page
imageWidth. -/
structure LineSpec where
  coords : String
  orientation : ℚ
  imgWidth : ℤ

/-- Lines 432–459: the per-line loop of PageXMLReader._load_sample in image
mode, on a single-channel page image.  Each line is cut out of the current
img binding with scale = lx / imageWidth (lx re-read from img each
iteration); afterwards, when pad is configured, np.pad is applied to img —
the page image variable — with constant value img.max(initial=0), so the
padded page feeds the next iteration while the yielded line image is the
unpadded cutout result.  Returns the yielded line images and the final value
of img. -/
def loadSamples (mode : CutMode) (pad : Option (List ℕ)) :
    List (List ℕ) → List LineSpec →
      List (Except String (List (List ℕ))) × List (List ℕ)
  | img, [] => ([], img)
  | img, s :: rest =>
    let lx : ℕ := (img.headD []).length
    let angle := orientationAngle s.orientation
    let lineImg :=
      cutout img s.coords mode (some angle) 0 none ((lx : ℚ) / (s.imgWidth : ℚ)) 0
    let imgNext :=
      match pad with
      | some p => npPad2 (padWidths p) (amax2 img) img
      | none => img
    let rest2 := loadSamples mode pad imgNext rest
    (lineImg :: rest2.1, rest2.2)

/-- All points lie inside an h × w image. -/
def InBounds (h w : ℕ) (coords : List (ℤ × ℤ)) : Prop :=
  ∀ p ∈ coords, 0 ≤ p.1 ∧ p.1 < (h : ℤ) ∧ 0 ≤ p.2 ∧ p.2 < (w : ℤ)

/-- Every row of the 2-d array has length w. -/
def IsRect (w : ℕ) (img : List (List α)) : Prop := ∀ row ∈ img, row.length = w

/-- All pixels are 8-bit values (uint8 image). -/
def Pix8 (img : List (List ℕ)) : Prop := ∀ row ∈ img, ∀ v ∈ row, v < 256

/-- Every pixel of the 3-d array has exactly ch channels. -/
def IsRect3 (ch : ℕ) (img : List (List (List ℕ))) : Prop :=
  ∀ row ∈ img, ∀ px ∈ row, px.length = ch

/-- All channel values are 8-bit values (uint8 multi-channel image). -/
def Pix8C (img : List (List (List ℕ))) : Prop :=
  ∀ row ∈ img, ∀ px ∈ row, ∀ v ∈ px, v < 256

/-- The translated polygon in (x, y) order, exactly as the mask step receives
it when angle = 0 (lines 291 and 340). -/
def polyT (coords : List (ℤ × ℤ)) : List (ℤ × ℤ) :=
  coords.map (fun p => (p.2 - intsMin (colsOf coords), p.1 - intsMin (rowsOf coords)))

/-- The polygon in page-frame (x, y) = (col, row) coordinates. -/
def polyXY (coords : List (ℤ × ℤ)) : List (ℤ × ℤ) := coords.map (fun p => (p.2, p.1))

instance (poly : List (ℤ × ℤ)) (p : ℤ × ℤ) : Decidable (StrictlyInside poly p) := by
  unfold StrictlyInside; infer_instance

instance (poly : List (ℤ × ℤ)) (p : ℤ × ℤ) : Decidable (StrictlyOutside poly p) := by
  unfold StrictlyOutside; infer_instance

instance (h w : ℕ) (coords : List (ℤ × ℤ)) : Decidable (InBounds h w coords) := by
  unfold InBounds; infer_instance

instance (w : ℕ) (img : List (List α)) : Decidable (IsRect w img) := by
  unfold IsRect; infer_instance

instance (img : List (List ℕ)) : Decidable (Pix8 img) := by
  unfold Pix8; infer_instance

instance (ch : ℕ) (img : List (List (List ℕ))) : Decidable (IsRect3 ch img) := by
  unfold IsRect3; infer_instance

instance (img : List (List (List ℕ))) : Decidable (Pix8C img) := by
  unfold Pix8C; infer_instance

/-! ### Helper lemmas -/

theorem foldl_min_le_init (t : List ℤ) (b : ℤ) : t.foldl min b ≤ b := by
  induction t generalizing b with
  | nil => simp
  | cons x t ih => exact le_trans (ih (min b x)) (min_le_left b x)

theorem foldl_min_le_mem (t : List ℤ) (b a : ℤ) (h : a ∈ t) : t.foldl min b ≤ a := by
  induction t generalizing b with
  | nil => cases h
  | cons x t ih =>
    rcases List.mem_cons.mp h with rfl | h2
    · exact le_trans (foldl_min_le_init t (min b a)) (min_le_right b a)
    · exact ih (min b x) h2

theorem intsMin_le {xs : List ℤ} {a : ℤ} (h : a ∈ xs) : intsMin xs ≤ a := by
  cases xs with
  | nil => cases h
  | cons x t =>
    rcases List.mem_cons.mp h with rfl | h2
    · exact foldl_min_le_init t a
    · exact foldl_min_le_mem t x a h2

theorem init_le_foldl_max (t : List ℤ) (b : ℤ) : b ≤ t.foldl max b := by
  induction t generalizing b with
  | nil => simp
  | cons x t ih => exact le_trans (le_max_left b x) (ih (max b x))

theorem mem_le_foldl_max (t : List ℤ) (b a : ℤ) (h : a ∈ t) : a ≤ t.foldl max b := by
  induction t generalizing b with
  | nil => cases h
  | cons x t ih =>
    rcases List.mem_cons.mp h with rfl | h2
    · exact le_trans (le_max_right b a) (init_le_foldl_max t (max b a))
    · exact ih (max b x) h2

theorem le_intsMax {xs : List ℤ} {a : ℤ} (h : a ∈ xs) : a ≤ intsMax xs := by
  cases xs with
  | nil => cases h
  | cons x t =>
    rcases List.mem_cons.mp h with rfl | h2
    · exact init_le_foldl_max t a
    · exact mem_le_foldl_max t x a h2

theorem foldl_min_mem (t : List ℤ) (b : ℤ) : t.foldl min b = b ∨ t.foldl min b ∈ t := by
  induction t generalizing b with
  | nil => exact Or.inl rfl
  | cons x t ih =>
    rcases ih (min b x) with h | h
    · rcases min_choice b x with hm | hm
      · exact Or.inl (by rw [List.foldl_cons, h, hm])
      · exact Or.inr (by rw [List.foldl_cons, h, hm]; exact List.mem_cons_self x t)
    · exact Or.inr (List.mem_cons_of_mem x h)

theorem intsMin_mem {xs : List ℤ} (h : xs ≠ []) : intsMin xs ∈ xs := by
  cases xs with
  | nil => exact absurd rfl h
  | cons x t =>
    rcases foldl_min_mem t x with h2 | h2
    · rw [intsMin, h2]; exact List.mem_cons_self x t
    · exact List.mem_cons_of_mem x h2

theorem foldl_max_mem (t : List ℤ) (b : ℤ) : t.foldl max b = b ∨ t.foldl max b ∈ t := by
  induction t generalizing b with
  | nil => exact Or.inl rfl
  | cons x t ih =>
    rcases ih (max b x) with h | h
    · rcases max_choice b x with hm | hm
      · exact Or.inl (by rw [List.foldl_cons, h, hm])
      · exact Or.inr (by rw [List.foldl_cons, h, hm]; exact List.mem_cons_self x t)
    · exact Or.inr (List.mem_cons_of_mem x h)

theorem intsMax_mem {xs : List ℤ} (h : xs ≠ []) : intsMax xs ∈ xs := by
  cases xs with
  | nil => exact absurd rfl h
  | cons x t =>
    rcases foldl_max_mem t x with h2 | h2
    · rw [intsMax, h2]; exact List.mem_cons_self x t
    · exact List.mem_cons_of_mem x h2

theorem npIdx_le (n : ℕ) (i : ℤ) : npIdx n i ≤ n := by
  unfold npIdx; split <;> exact Nat.min_le_right _ n

theorem npIdx_ofNat (n : ℕ) (m : ℕ) : npIdx n (m : ℤ) = min m n := by
  unfold npIdx
  rw [if_neg (by omega)]
  simp

theorem npSlice_length (l h : ℤ) (xs : List α) :
    (npSlice l h xs).length = npIdx xs.length h - npIdx xs.length l := by
  unfold npSlice
  rw [List.length_take, List.length_drop]
  have := npIdx_le xs.length h
  omega

theorem npSlice_getD (l h : ℤ) (xs : List α) (i : ℕ) (d : α)
    (hi : i < (npSlice l h xs).length) :
    (npSlice l h xs).getD i d = xs.getD (npIdx xs.length l + i) d := by
  have hlen := npSlice_length l h xs
  have hb : npIdx xs.length l + i < xs.length := by
    have := npIdx_le xs.length h
    omega
  rw [List.getD_eq_getElem _ _ hi, List.getD_eq_getElem _ _ hb]
  unfold npSlice
  rw [List.getElem_take, List.getElem_drop]

theorem npSlice_full (h : ℤ) (xs : List α) (hh : (xs.length : ℤ) ≤ h) :
    npSlice 0 h xs = xs := by
  unfold npSlice
  have h0 : npIdx xs.length 0 = 0 := by
    have := npIdx_ofNat xs.length 0
    simpa using this
  have hN : npIdx xs.length h = xs.length := by
    unfold npIdx
    rw [if_neg (by omega)]
    exact Nat.min_eq_right (by omega)
  rw [h0, hN]
  simp

theorem npSlice2_full (rh ch : ℤ) (img : List (List α))
    (h1 : (img.length : ℤ) ≤ rh) (h2 : ∀ row ∈ img, (row.length : ℤ) ≤ ch) :
    npSlice2 0 rh 0 ch img = img := by
  unfold npSlice2
  rw [npSlice_full rh img h1]
  calc img.map (npSlice 0 ch)
      = img.map id := List.map_congr_left (fun row hr => npSlice_full ch row (h2 row hr))
    _ = img := List.map_id img

theorem size2_of_rect {w : ℕ} {img : List (List α)} (h : IsRect w img) :
    size2 img = img.length * w := by
  induction img with
  | nil => simp [size2]
  | cons row t ih =>
    have hr : row.length = w := h row (List.mem_cons_self row t)
    have ht : IsRect w t := fun r hrr => h r (List.mem_cons_of_mem row hrr)
    simp only [size2, List.map_cons, List.sum_cons] at *
    rw [hr, ih ht, List.length_cons]
    ring

theorem and_255_eq {v : ℕ} (h : v < 256) : v &&& 255 = v := by
  have h2 : v < 2 ^ 8 := by omega
  have := @Nat.and_pow_two_sub_one_of_lt_two_pow 8 v h2
  norm_num at this
  exact this

theorem composite8_inside {v cv : ℕ} (hv : v < 256) : composite8 255 v cv = v := by
  unfold composite8
  rw [and_255_eq hv]
  norm_num [Nat.and_zero]
  omega

theorem composite8_outside {v cv : ℕ} (hcv : cv < 256) : composite8 0 v cv = cv := by
  unfold composite8
  rw [Nat.and_zero]
  norm_num [and_255_eq hcv]
  omega

theorem enum_map_getD {α β : Type} (f : ℕ × α → β) (xs : List α) (i : ℕ) (d : β)
    (d2 : α) (hi : i < xs.length) :
    (xs.enum.map f).getD i d = f (i, xs.getD i d2) := by
  have h1 : i < (xs.enum.map f).length := by
    rw [List.length_map, List.enum_length]; exact hi
  rw [List.getD_eq_getElem _ _ h1, List.getElem_map, List.getElem_enum,
    List.getD_eq_getElem _ _ hi]

theorem npIdx_nonneg (n : ℕ) (i : ℤ) (h0 : 0 ≤ i) : npIdx n i = min i.toNat n := by
  unfold npIdx
  rw [if_neg (by omega)]

theorem RayCross_shift (dx dy px py ax ay bx bz : ℤ) :
    RayCross (px - dx, py - dy) (ax - dx, ay - dy) (bx - dx, bz - dy) ↔
    RayCross (px, py) (ax, ay) (bx, bz) := by
  unfold RayCross
  dsimp only
  have e1 : ax - dx - (px - dx) = ax - px := by ring
  have e2 : bz - dy - (ay - dy) = bz - ay := by ring
  have e3 : py - dy - (ay - dy) = py - ay := by ring
  have e4 : bx - dx - (ax - dx) = bx - ax := by ring
  rw [e1, e2, e3, e4]
  constructor
  · rintro ⟨h1, h2⟩
    refine ⟨by omega, ?_⟩
    by_cases hc : ay < bz
    · rw [if_pos hc]
      rw [if_pos (by omega : ay - dy < bz - dy)] at h2
      exact h2
    · rw [if_neg hc]
      rw [if_neg (by omega : ¬ ay - dy < bz - dy)] at h2
      exact h2
  · rintro ⟨h1, h2⟩
    refine ⟨by omega, ?_⟩
    by_cases hc : ay < bz
    · rw [if_pos (by omega : ay - dy < bz - dy)]
      rw [if_pos hc] at h2
      exact h2
    · rw [if_neg (by omega : ¬ ay - dy < bz - dy)]
      rw [if_neg hc] at h2
      exact h2

theorem OnSeg_shift (dx dy ax ay bx bz px py : ℤ) :
    OnSeg (ax - dx, ay - dy) (bx - dx, bz - dy) (px - dx, py - dy) ↔
    OnSeg (ax, ay) (bx, bz) (px, py) := by
  unfold OnSeg
  dsimp only
  constructor <;> rintro ⟨h1, h2, h3, h4, h5⟩ <;>
    exact ⟨by linear_combination h1, by omega, by omega, by omega, by omega⟩

theorem polyEdges_map (f : ℤ × ℤ → ℤ × ℤ) (poly : List (ℤ × ℤ)) :
    polyEdges (poly.map f) = (polyEdges poly).map (fun e => (f e.1, f e.2)) := by
  unfold polyEdges
  rw [← List.map_drop, ← List.map_take, ← List.map_append, List.zip_map]
  apply List.map_congr_left
  intro e _
  simp [Prod.map]

theorem crossCount_shift (dx dy : ℤ) (poly : List (ℤ × ℤ)) (px py : ℤ) :
    crossCount (poly.map (fun q => (q.1 - dx, q.2 - dy))) (px - dx, py - dy) =
    crossCount poly (px, py) := by
  unfold crossCount
  rw [polyEdges_map, List.countP_map]
  apply List.countP_congr
  intro e _
  simp only [Function.comp_apply, decide_eq_true_eq]
  exact RayCross_shift dx dy px py e.1.1 e.1.2 e.2.1 e.2.2

theorem OnBoundary_shift (dx dy : ℤ) (poly : List (ℤ × ℤ)) (px py : ℤ) :
    OnBoundary (poly.map (fun q => (q.1 - dx, q.2 - dy))) (px - dx, py - dy) ↔
    OnBoundary poly (px, py) := by
  unfold OnBoundary
  rw [polyEdges_map]
  simp only [List.mem_map]
  constructor
  · rintro ⟨e2, ⟨e, he, rfl⟩, hseg⟩
    exact ⟨e, he, (OnSeg_shift dx dy e.1.1 e.1.2 e.2.1 e.2.2 px py).mp hseg⟩
  · rintro ⟨e, he, hseg⟩
    exact ⟨_, ⟨e, he, rfl⟩, (OnSeg_shift dx dy e.1.1 e.1.2 e.2.1 e.2.2 px py).mpr hseg⟩

theorem StrictlyInside_shift (dx dy : ℤ) (poly : List (ℤ × ℤ)) (px py : ℤ) :
    StrictlyInside (poly.map (fun q => (q.1 - dx, q.2 - dy))) (px - dx, py - dy) ↔
    StrictlyInside poly (px, py) := by
  unfold StrictlyInside
  rw [crossCount_shift, OnBoundary_shift]

theorem StrictlyOutside_shift (dx dy : ℤ) (poly : List (ℤ × ℤ)) (px py : ℤ) :
    StrictlyOutside (poly.map (fun q => (q.1 - dx, q.2 - dy))) (px - dx, py - dy) ↔
    StrictlyOutside poly (px, py) := by
  unfold StrictlyOutside
  rw [crossCount_shift, OnBoundary_shift]

theorem fillPolyTest_of_inside {poly : List (ℤ × ℤ)} {p : ℤ × ℤ}
    (h : StrictlyInside poly p) : fillPolyTest poly p = true := by
  unfold fillPolyTest
  simp only [Bool.or_eq_true, decide_eq_true_eq]
  exact Or.inr h.2

theorem fillPolyTest_of_outside {poly : List (ℤ × ℤ)} {p : ℤ × ℤ}
    (h : StrictlyOutside poly p) : fillPolyTest poly p = false := by
  unfold fillPolyTest
  simp only [Bool.or_eq_false_iff, decide_eq_false_iff_not]
  exact ⟨h.1, by have := h.2; omega⟩

theorem bbox_bounds {h w : ℕ} {coords : List (ℤ × ℤ)} (hne : coords ≠ [])
    (hin : InBounds h w coords) :
    0 ≤ intsMin (rowsOf coords) ∧ intsMin (rowsOf coords) ≤ intsMax (rowsOf coords) ∧
    intsMax (rowsOf coords) < (h : ℤ) ∧
    0 ≤ intsMin (colsOf coords) ∧ intsMin (colsOf coords) ≤ intsMax (colsOf coords) ∧
    intsMax (colsOf coords) < (w : ℤ) := by
  have hrne : rowsOf coords ≠ [] := by
    unfold rowsOf; simpa using hne
  have hcne : colsOf coords ≠ [] := by
    unfold colsOf; simpa using hne
  obtain ⟨p1, hp1, he1⟩ := List.mem_map.mp (intsMin_mem hrne)
  obtain ⟨p2, hp2, he2⟩ := List.mem_map.mp (intsMax_mem hrne)
  obtain ⟨p3, hp3, he3⟩ := List.mem_map.mp (intsMin_mem hcne)
  obtain ⟨p4, hp4, he4⟩ := List.mem_map.mp (intsMax_mem hcne)
  have b1 := hin p1 hp1
  have b2 := hin p2 hp2
  have b3 := hin p3 hp3
  have b4 := hin p4 hp4
  refine ⟨?_, intsMin_le (intsMax_mem hrne), ?_, ?_, intsMin_le (intsMax_mem hcne), ?_⟩
  · show 0 ≤ intsMin (coords.map Prod.fst)
    rw [← he1]; exact b1.1
  · show intsMax (coords.map Prod.fst) < (h : ℤ)
    rw [← he2]; exact b2.2.1
  · show 0 ≤ intsMin (coords.map Prod.snd)
    rw [← he3]; exact b3.2.2.1
  · show intsMax (coords.map Prod.snd) < (w : ℤ)
    rw [← he4]; exact b4.2.2.2

theorem mem_of_npSlice {l h : ℤ} {xs : List α} {a : α} (hm : a ∈ npSlice l h xs) :
    a ∈ xs := by
  unfold npSlice at hm
  exact List.mem_of_mem_drop (List.mem_of_mem_take hm)

theorem bboxCrop_shape {α : Type} {w : ℕ} {img : List (List α)} {coords : List (ℤ × ℤ)}
    (hrect : IsRect w img) (hne : coords ≠ []) (hin : InBounds img.length w coords) :
    (bboxCrop img coords).length
        = (intsMax (rowsOf coords) - intsMin (rowsOf coords)).toNat + 1 ∧
      IsRect ((intsMax (colsOf coords) - intsMin (colsOf coords)).toNat + 1)
        (bboxCrop img coords) := by
  obtain ⟨hr0, hrm, hrh, hc0, hcm, hcw⟩ := bbox_bounds hne hin
  constructor
  · unfold bboxCrop npSlice2
    rw [List.length_map, npSlice_length,
      npIdx_nonneg _ _ hr0, npIdx_nonneg _ _ (by omega)]
    omega
  · intro row hrow
    unfold bboxCrop npSlice2 at hrow
    obtain ⟨r0, hr0mem, rfl⟩ := List.mem_map.mp hrow
    have hr0img : r0 ∈ img := mem_of_npSlice hr0mem
    have hr0len : r0.length = w := hrect r0 hr0img
    rw [npSlice_length, hr0len, npIdx_nonneg _ _ hc0, npIdx_nonneg _ _ (by omega)]
    omega

theorem bboxCrop_size2_ne {α : Type} {w : ℕ} {img : List (List α)} {coords : List (ℤ × ℤ)}
    (hrect : IsRect w img) (hne : coords ≠ []) (hin : InBounds img.length w coords) :
    size2 (bboxCrop img coords) ≠ 0 := by
  obtain ⟨hlen, hrect2⟩ := bboxCrop_shape hrect hne hin
  rw [size2_of_rect hrect2, hlen]
  exact Nat.mul_ne_zero (by omega) (by omega)

theorem bboxCrop_getD {α : Type} {w : ℕ} {img : List (List α)} {coords : List (ℤ × ℤ)}
    (hrect : IsRect w img) (hne : coords ≠ []) (hin : InBounds img.length w coords)
    (r c : ℕ) (d : α) (hr : r < (bboxCrop img coords).length)
    (hc : c < ((bboxCrop img coords).getD r []).length) :
    ((bboxCrop img coords).getD r []).getD c d =
      (img.getD ((intsMin (rowsOf coords)).toNat + r) []).getD
        ((intsMin (colsOf coords)).toNat + c) d := by
  obtain ⟨hr0, hrm, hrh, hc0, hcm, hcw⟩ := bbox_bounds hne hin
  have hrouter :
      r < (npSlice (intsMin (rowsOf coords)) (intsMax (rowsOf coords) + 1) img).length := by
    have h2 := hr
    unfold bboxCrop npSlice2 at h2
    rwa [List.length_map] at h2
  have hrowEq : (bboxCrop img coords).getD r [] =
      npSlice (intsMin (colsOf coords)) (intsMax (colsOf coords) + 1)
        ((npSlice (intsMin (rowsOf coords)) (intsMax (rowsOf coords) + 1) img).getD r []) := by
    unfold bboxCrop npSlice2
    rw [List.getD_eq_getElem _ _ (by rw [List.length_map]; exact hrouter),
      List.getElem_map, List.getD_eq_getElem _ _ hrouter]
  have hinner :
      (npSlice (intsMin (rowsOf coords)) (intsMax (rowsOf coords) + 1) img).getD r []
        = img.getD ((intsMin (rowsOf coords)).toNat + r) [] := by
    rw [npSlice_getD _ _ _ _ _ hrouter, npIdx_nonneg _ _ hr0,
      Nat.min_eq_left (by omega)]
  have hrmem :
      (npSlice (intsMin (rowsOf coords)) (intsMax (rowsOf coords) + 1) img).getD r [] ∈ img := by
    rw [List.getD_eq_getElem _ _ hrouter]
    exact mem_of_npSlice (List.getElem_mem _)
  have hrlen :
      ((npSlice (intsMin (rowsOf coords)) (intsMax (rowsOf coords) + 1) img).getD r []).length
        = w := hrect _ hrmem
  rw [hrowEq] at hc
  rw [hrowEq, npSlice_getD _ _ _ _ _ hc, npIdx_nonneg _ _ hc0, hrlen,
    Nat.min_eq_left (by omega), hinner]

theorem cutoutCore_angle0 (img : List (List ℕ)) (coords : List (ℤ × ℤ)) (mode : CutMode)
    (maxA : ℚ) (cval : Option ℕ) (mbrA : ℚ) (hne : coords ≠ [])
    (hsz : size2 (bboxCrop img coords) ≠ 0) :
    cutoutCore img coords mode (some 0) maxA cval mbrA =
      .ok (npSlice2 0 (intsMax (rowsOf coords) - intsMin (rowsOf coords) + 1)
        0 (intsMax (colsOf coords) - intsMin (colsOf coords) + 1)
        (if mode = CutMode.POLYGON ∨ mode = CutMode.MBR then
          maskComposite
            (if mode = CutMode.MBR then mbrBoxPoints (polyT coords) else polyT coords)
            (cval.getD (amax2 (bboxCrop img coords))) (bboxCrop img coords)
        else bboxCrop img coords)) := by
  unfold bboxCrop at hsz ⊢
  unfold polyT
  cases coords with
  | nil => exact absurd rfl hne
  | cons c0 cs =>
    simp only [cutoutCore, resolveAngle]
    rw [if_neg hsz, if_neg (show ¬ (0 : ℚ) ≠ 0 from not_not_intro rfl)]
    simp only [List.map_map]
    rfl

theorem getD_mem {l : List α} {i : ℕ} (h : i < l.length) (d : α) : l.getD i d ∈ l := by
  rw [List.getD_eq_getElem _ _ h]
  exact List.getElem_mem _

theorem maskComposite_length (poly : List (ℤ × ℤ)) (cval : ℕ) (cut : List (List ℕ)) :
    (maskComposite poly cval cut).length = cut.length := by
  simp [maskComposite]

theorem maskComposite_getD (poly : List (ℤ × ℤ)) (cval : ℕ) (cut : List (List ℕ))
    (r : ℕ) (hr : r < cut.length) :
    (maskComposite poly cval cut).getD r [] =
      (cut.getD r []).enum.map (fun c =>
        composite8 (if fillPolyTest poly ((c.1 : ℤ), (r : ℤ)) then 255 else 0) c.2 cval) := by
  unfold maskComposite
  rw [enum_map_getD _ _ _ _ [] hr]

theorem maskComposite_row_length (poly : List (ℤ × ℤ)) (cval : ℕ) (cut : List (List ℕ))
    (r : ℕ) (hr : r < cut.length) :
    ((maskComposite poly cval cut).getD r []).length = (cut.getD r []).length := by
  rw [maskComposite_getD _ _ _ _ hr]
  simp

theorem maskComposite_rect {w : ℕ} (poly : List (ℤ × ℤ)) (cval : ℕ)
    {cut : List (List ℕ)} (h : IsRect w cut) : IsRect w (maskComposite poly cval cut) := by
  intro row hrow
  obtain ⟨i, hi, rfl⟩ := List.mem_iff_getElem.mp hrow
  rw [maskComposite_length] at hi
  rw [← List.getD_eq_getElem _ [] _, maskComposite_row_length _ _ _ _ hi]
  exact h _ (getD_mem hi [])

theorem maskComposite_pixel (poly : List (ℤ × ℤ)) (cval : ℕ) (cut : List (List ℕ))
    (r c : ℕ) (hr : r < cut.length) (hc : c < (cut.getD r []).length) :
    ((maskComposite poly cval cut).getD r []).getD c 0 =
      composite8 (if fillPolyTest poly ((c : ℤ), (r : ℤ)) then 255 else 0)
        ((cut.getD r []).getD c 0) cval := by
  rw [maskComposite_getD _ _ _ _ hr, enum_map_getD _ _ _ _ 0 hc]

/-- Claim C2: for every polygon whose scaled points lie fully inside the page
image, with angle 0 and mode BOX, cutout returns exactly the source image
cropped to the polygon's axis-aligned bounding box: the result has
(maxRow - minRow + 1) rows of (maxCol - minCol + 1) pixels and each pixel
equals the source pixel offset by (minRow, minCol). -/
theorem C2_box_crop {w : ℕ} (img : List (List ℕ)) (coords : List (ℤ × ℤ))
    (maxA : ℚ) (cval : Option ℕ) (mbrA : ℚ)
    (hrect : IsRect w img) (hne : coords ≠ []) (hin : InBounds img.length w coords) :
    cutoutCore img coords CutMode.BOX (some 0) maxA cval mbrA =
      .ok (bboxCrop img coords) ∧
    (bboxCrop img coords).length
      = (intsMax (rowsOf coords) - intsMin (rowsOf coords)).toNat + 1 ∧
    IsRect ((intsMax (colsOf coords) - intsMin (colsOf coords)).toNat + 1)
      (bboxCrop img coords) ∧
    ∀ r c : ℕ, r < (bboxCrop img coords).length →
      c < ((bboxCrop img coords).getD r []).length →
      ((bboxCrop img coords).getD r []).getD c 0 =
        (img.getD ((intsMin (rowsOf coords)).toNat + r) []).getD
          ((intsMin (colsOf coords)).toNat + c) 0 := by
  have hsz := bboxCrop_size2_ne hrect hne hin
  obtain ⟨hlen, hrect2⟩ := bboxCrop_shape hrect hne hin
  obtain ⟨hr0, hrm, hrh, hc0, hcm, hcw⟩ := bbox_bounds hne hin
  have hmain := cutoutCore_angle0 img coords CutMode.BOX maxA cval mbrA hne hsz
  rw [if_neg (by simp)] at hmain
  rw [npSlice2_full _ _ _ (by rw [hlen]; push_cast; omega)
    (fun row hrw => by rw [hrect2 row hrw]; push_cast; omega)] at hmain
  exact ⟨hmain, hlen, hrect2,
    fun r c hr hc => bboxCrop_getD hrect hne hin r c 0 hr hc⟩

/-- Witness for C2 at a concrete input: a 2 × 2 sub-box of a 3 × 3 image. -/
theorem C2_witness :
    cutoutCore [[1,2,3],[4,5,6],[7,8,9]] [((0:ℤ),(0:ℤ)), ((1:ℤ),(1:ℤ))] CutMode.BOX
        (some 0) 0 none 0 =
      .ok (bboxCrop [[1,2,3],[4,5,6],[7,8,9]] [((0:ℤ),(0:ℤ)), ((1:ℤ),(1:ℤ))]) :=
  (@C2_box_crop 3 [[1,2,3],[4,5,6],[7,8,9]] [((0:ℤ),(0:ℤ)), ((1:ℤ),(1:ℤ))] 0 none 0
    (by decide) (by decide) (by decide)).1

/-- Claim C3 counterexample: an empty polygon string does not return an empty
image with no exception — np.amax over the empty parsed coordinate array
raises ValueError (the model's error value), here on a 1 × 1 page image. -/
theorem C3_counterexample :
    cutout [[5]] ("") CutMode.BOX (some 0) 0 none 1 0 =
      .error ("ValueError: zero-size array to reduction operation maximum") := by
  rfl

/-- Claim C3 (amended): for every polygon string that parses to a NONEMPTY
point list whose scaled points give a zero-area bounding-box crop, cutout
returns the empty crop itself — a zero-size image — in every mode, with no
rotation, fill computation or masking, and no exception.  (An empty polygon
string instead raises, per the counterexample.) -/
theorem C3_zero_area (img : List (List ℕ)) (s : String) (coords : List (ℤ × ℤ))
    (mode : CutMode) (angle : Option ℚ) (maxA : ℚ) (cval : Option ℕ) (scale mbrA : ℚ)
    (hp : parseCoords scale s = .ok coords) (hne : coords ≠ [])
    (hz : size2 (bboxCrop img coords) = 0) :
    cutout img s mode angle maxA cval scale mbrA = .ok (bboxCrop img coords) ∧
    size2 (bboxCrop img coords) = 0 := by
  refine ⟨?_, hz⟩
  unfold cutout
  rw [hp]
  show cutoutCore img coords mode angle maxA cval mbrA = _
  cases coords with
  | nil => exact absurd rfl hne
  | cons c0 cs =>
    unfold bboxCrop at hz ⊢
    simp only [cutoutCore]
    rw [if_pos hz]

/-- Witness for C3's amended statement: a single out-of-range point yields an
empty crop and an empty result. -/
theorem C3_zero_area_witness :
    cutout [[1,2],[3,4]] ("5,5") CutMode.POLYGON (some 0) 0 none 1 0 =
      .ok (bboxCrop [[1,2],[3,4]] [((5:ℤ),(5:ℤ))]) ∧
    size2 (bboxCrop [[1,2],[3,4]] [((5:ℤ),(5:ℤ))]) = 0 :=
  C3_zero_area [[1,2],[3,4]] ("5,5") [((5:ℤ),(5:ℤ))] CutMode.POLYGON (some 0) 0 none 1 0
    (by with_unfolding_all decide) (by simp) (by rfl)

/-- Claim C7: with an unspecified (auto) angle, a positive maxAutoAngle takes
the candidate angle from the minimum-area rectangle's reported orientation,
replacing an orientation strictly above 45 by that orientation minus 90, and
discards the candidate for 0 when its magnitude exceeds maxAutoAngle; with
maxAutoAngle zero (or unset — the default), the angle used is 0, so the auto
case behaves exactly like an explicit angle 0 in cutout. -/
theorem C7_auto_angle (maxA mbrA : ℚ) :
    (maxA ≤ 0 → resolveAngle none maxA mbrA = 0) ∧
    (0 < maxA →
      resolveAngle none maxA mbrA =
        (if maxA < |if 45 < mbrA then mbrA - 90 else mbrA| then 0
         else if 45 < mbrA then mbrA - 90 else mbrA)) ∧
    (∀ (img : List (List ℕ)) (coords : List (ℤ × ℤ)) (mode : CutMode) (cval : Option ℕ),
      cutoutCore img coords mode none 0 cval mbrA =
        cutoutCore img coords mode (some 0) 0 cval mbrA) := by
  refine ⟨?_, ?_, ?_⟩
  · intro h
    simp only [resolveAngle]
    rw [if_neg (not_lt.mpr h)]
  · intro h
    simp only [resolveAngle]
    rw [if_pos h]
  · intro img coords mode cval
    cases coords with
    | nil => rfl
    | cons c0 cs =>
      simp only [cutoutCore]
      norm_num [resolveAngle]

/-- Witness for C7: a 50-degree reported orientation is normalized to -40 and
discarded against maxAutoAngle 2; with maxAutoAngle 0 the angle is 0. -/
theorem C7_witness :
    resolveAngle none 2 50 = 0 ∧ resolveAngle none 0 7 = 0 ∧
    cutoutCore [[1]] [((0:ℤ),(0:ℤ))] CutMode.BOX none 0 none 50 =
      cutoutCore [[1]] [((0:ℤ),(0:ℤ))] CutMode.BOX (some 0) 0 none 50 := by
  refine ⟨?_, (C7_auto_angle 0 7).1 le_rfl,
    (C7_auto_angle 0 50).2.2 [[1]] [((0:ℤ),(0:ℤ))] CutMode.BOX none⟩
  rw [(C7_auto_angle 2 50).2.1 (by norm_num)]
  norm_num

/-- Claim C9: ground-truth text resolution prefers TextEquiv entries whose
index attribute equals the configured text_index; with none, it falls back to
entries lacking an index attribute; among several candidates the first is
used; with no candidate the resolved text is absent (none) — in particular a
lone entry of index 1 under text_index 0 yields none, not its text. -/
theorem C9_text_resolution (ti : ℤ) (tes : List TextEquivE) :
    (∀ te rest, tes.filter (fun x => x.index = some ti) = te :: rest →
      resolveText ti tes = some (uniText te)) ∧
    (∀ te rest, tes.filter (fun x => x.index = some ti) = [] →
      tes.filter (fun x => x.index = none) = te :: rest →
      resolveText ti tes = some (uniText te)) ∧
    (tes.filter (fun x => x.index = some ti) = [] →
      tes.filter (fun x => x.index = none) = [] →
      resolveText ti tes = none) ∧
    resolveText 0 [⟨some 1, some (some ("x"))⟩] = none := by
  refine ⟨?_, ?_, ?_, rfl⟩
  · intro te rest h
    simp [resolveText, h]
  · intro te rest h1 h2
    simp [resolveText, h1, h2]
  · intro h1 h2
    simp [resolveText, h1, h2]

/-- Witness for C9: an indexed match, an index-less fallback, and a no-match
case, each at text_index 5. -/
theorem C9_witness :
    resolveText 5 [⟨some 5, some (some ("a"))⟩, ⟨none, none⟩] = some ("a") ∧
    resolveText 5 [⟨some 4, some (some ("b"))⟩, ⟨none, some (some ("c"))⟩] = some ("c") ∧
    resolveText 5 [⟨some 4, none⟩] = none :=
  ⟨(C9_text_resolution 5 _).1 ⟨some 5, some (some ("a"))⟩ [] (by decide),
   (C9_text_resolution 5 _).2.1 ⟨none, some (some ("c"))⟩ [] (by decide) (by decide),
   (C9_text_resolution 5 _).2.2.1 (by decide) (by decide)⟩

/-- Claim C5 (amended): in MBR mode on the angle-0 path the final crop uses
the bounding box of the polygon as it stood BEFORE the minimum-rectangle
replacement; for a polygon inside the image that box spans the entire cropped
buffer, so the returned image is the whole masked buffer rather than a crop
to the bounding box of the replaced polygon's four corner points (which can
extend beyond the buffer). -/
theorem C5_mbr_final_crop {w : ℕ} (img : List (List ℕ)) (coords : List (ℤ × ℤ))
    (maxA : ℚ) (cv : ℕ) (mbrA : ℚ) (hrect : IsRect w img) (hne : coords ≠ [])
    (hin : InBounds img.length w coords) :
    cutoutCore img coords CutMode.MBR (some 0) maxA (some cv) mbrA =
      .ok (maskComposite (mbrBoxPoints (polyT coords)) cv (bboxCrop img coords)) := by
  have hsz := bboxCrop_size2_ne hrect hne hin
  obtain ⟨hlen, hrect2⟩ := bboxCrop_shape hrect hne hin
  obtain ⟨hr0, hrm, hrh, hc0, hcm, hcw⟩ := bbox_bounds hne hin
  have hmain := cutoutCore_angle0 img coords CutMode.MBR maxA (some cv) mbrA hne hsz
  rw [if_pos (Or.inr rfl), if_pos rfl, Option.getD_some] at hmain
  rw [npSlice2_full] at hmain
  · exact hmain
  · rw [maskComposite_length, hlen]; push_cast; omega
  · intro row hrow
    obtain ⟨i, hi, rfl⟩ := List.mem_iff_getElem.mp hrow
    rw [maskComposite_length, hlen] at hi
    rw [← List.getD_eq_getElem _ [],
      maskComposite_row_length _ _ _ _ (by rw [hlen]; omega),
      hrect2 _ (getD_mem (by rw [hlen]; omega) ([] : List ℕ))]
    push_cast
    omega

/-- Witness for C5's amended statement at a small concrete MBR cut. -/
theorem C5_witness :
    cutoutCore [[1,2],[3,4]] [((0:ℤ),(0:ℤ)), ((1:ℤ),(1:ℤ))] CutMode.MBR
        (some 0) 0 (some 9) 0 =
      .ok (maskComposite (mbrBoxPoints (polyT [((0:ℤ),(0:ℤ)), ((1:ℤ),(1:ℤ))])) 9
        (bboxCrop [[1,2],[3,4]] [((0:ℤ),(0:ℤ)), ((1:ℤ),(1:ℤ))])) :=
  @C5_mbr_final_crop 2 [[1,2],[3,4]] [((0:ℤ),(0:ℤ)), ((1:ℤ),(1:ℤ))] 0 9 0
    (by decide) (by decide) (by decide)

/-- Claim C5 counterexample: for this hexagonal polygon in MBR mode on the
angle-0 path, the replaced polygon — the minimum-area rectangle's corner
points — is (1,-1),(7,5),(5,7),(-1,1), whose axis-aligned bounding box spans
9 rows (and 9 columns), yet the image cutout returns has 7 rows: the final
crop is not the bounding box of the final (replaced) polygon. -/
theorem C5_counterexample :
    (cutoutCore (List.replicate 7 (List.replicate 7 0))
        [((0:ℤ),(2:ℤ)), ((4:ℤ),(6:ℤ)), ((6:ℤ),(6:ℤ)), ((6:ℤ),(4:ℤ)), ((2:ℤ),(0:ℤ)),
          ((0:ℤ),(0:ℤ))] CutMode.MBR (some 0) 0 (some 0) 0).map List.length =
      .ok 7 ∧
    mbrBoxPoints (polyT [((0:ℤ),(2:ℤ)), ((4:ℤ),(6:ℤ)), ((6:ℤ),(6:ℤ)), ((6:ℤ),(4:ℤ)),
        ((2:ℤ),(0:ℤ)), ((0:ℤ),(0:ℤ))]) =
      [((1:ℤ),(-1:ℤ)), ((7:ℤ),(5:ℤ)), ((5:ℤ),(7:ℤ)), ((-1:ℤ),(1:ℤ))] ∧
    intsMax ((mbrBoxPoints (polyT [((0:ℤ),(2:ℤ)), ((4:ℤ),(6:ℤ)), ((6:ℤ),(6:ℤ)),
        ((6:ℤ),(4:ℤ)), ((2:ℤ),(0:ℤ)), ((0:ℤ),(0:ℤ))])).map Prod.snd) -
      intsMin ((mbrBoxPoints (polyT [((0:ℤ),(2:ℤ)), ((4:ℤ),(6:ℤ)), ((6:ℤ),(6:ℤ)),
        ((6:ℤ),(4:ℤ)), ((2:ℤ),(0:ℤ)), ((0:ℤ),(0:ℤ))])).map Prod.snd) + 1 = 9 ∧
    (7 : ℕ) ≠ 9 := by
  refine ⟨?_, ?_, ?_, by decide⟩ <;>
  · set_option maxRecDepth 10000 in with_unfolding_all decide

/-- The single-channel half of claim C1 (helper lemma). -/
theorem polygonMaskGray {w : ℕ} (img : List (List ℕ)) (coords : List (ℤ × ℤ))
    (maxA : ℚ) (cv : ℕ) (mbrA : ℚ)
    (hrect : IsRect w img) (hne : coords ≠ []) (hin : InBounds img.length w coords)
    (hpx : Pix8 img) (hcv : cv < 256) :
    ∃ res, cutoutCore img coords CutMode.POLYGON (some 0) maxA (some cv) mbrA = .ok res ∧
      res.length = (intsMax (rowsOf coords) - intsMin (rowsOf coords)).toNat + 1 ∧
      IsRect ((intsMax (colsOf coords) - intsMin (colsOf coords)).toNat + 1) res ∧
      ∀ r c : ℕ, r < res.length → c < (res.getD r []).length →
        (StrictlyInside (polyXY coords)
            (intsMin (colsOf coords) + c, intsMin (rowsOf coords) + r) →
          (res.getD r []).getD c 0 =
            (img.getD ((intsMin (rowsOf coords)).toNat + r) []).getD
              ((intsMin (colsOf coords)).toNat + c) 0) ∧
        (StrictlyOutside (polyXY coords)
            (intsMin (colsOf coords) + c, intsMin (rowsOf coords) + r) →
          (res.getD r []).getD c 0 = cv) := by
  have hsz := bboxCrop_size2_ne hrect hne hin
  obtain ⟨hlen, hrect2⟩ := bboxCrop_shape hrect hne hin
  obtain ⟨hr0, hrm, hrh, hc0, hcm, hcw⟩ := bbox_bounds hne hin
  have hmain := cutoutCore_angle0 img coords CutMode.POLYGON maxA (some cv) mbrA hne hsz
  rw [if_pos (Or.inl rfl), if_neg (by simp), Option.getD_some] at hmain
  rw [npSlice2_full] at hmain
  rotate_left
  · rw [maskComposite_length, hlen]; push_cast; omega
  · intro row hrow
    obtain ⟨i, hi, rfl⟩ := List.mem_iff_getElem.mp hrow
    rw [maskComposite_length, hlen] at hi
    rw [← List.getD_eq_getElem _ [],
      maskComposite_row_length _ _ _ _ (by rw [hlen]; omega),
      hrect2 _ (getD_mem (by rw [hlen]; omega) ([] : List ℕ))]
    push_cast
    omega
  refine ⟨_, hmain, ?_, ?_, ?_⟩
  · rw [maskComposite_length, hlen]
  · intro row hrow
    obtain ⟨i, hi, rfl⟩ := List.mem_iff_getElem.mp hrow
    rw [maskComposite_length] at hi
    rw [← List.getD_eq_getElem _ [], maskComposite_row_length _ _ _ _ hi]
    exact hrect2 _ (getD_mem hi [])
  · intro r c hr hc
    rw [maskComposite_length] at hr
    rw [maskComposite_row_length _ _ _ _ hr] at hc
    -- the shift equivalence between the page-frame polygon test and the
    -- translated mask polygon
    have hTmap : polyT coords =
        (polyXY coords).map (fun q =>
          (q.1 - intsMin (colsOf coords), q.2 - intsMin (rowsOf coords))) := by
      unfold polyT polyXY
      rw [List.map_map]
      rfl
    have hpoint1 : intsMin (colsOf coords) + (c : ℤ) - intsMin (colsOf coords) = c := by
      ring
    have hpoint2 : intsMin (rowsOf coords) + (r : ℤ) - intsMin (rowsOf coords) = r := by
      ring
    have hIn := StrictlyInside_shift (intsMin (colsOf coords)) (intsMin (rowsOf coords))
      (polyXY coords) (intsMin (colsOf coords) + c) (intsMin (rowsOf coords) + r)
    have hOut := StrictlyOutside_shift (intsMin (colsOf coords)) (intsMin (rowsOf coords))
      (polyXY coords) (intsMin (colsOf coords) + c) (intsMin (rowsOf coords) + r)
    rw [hpoint1, hpoint2, ← hTmap] at hIn hOut
    have hpixel := maskComposite_pixel (polyT coords) cv (bboxCrop img coords) r c hr hc
    have hcut := bboxCrop_getD hrect hne hin r c 0 hr hc
    have hv : ((bboxCrop img coords).getD r []).getD c 0 < 256 := by
      have hrowmem2 : (bboxCrop img coords).getD r [] ∈ bboxCrop img coords :=
        getD_mem hr []
      have h2 : (bboxCrop img coords).getD r [] ∈
          (npSlice (intsMin (rowsOf coords)) (intsMax (rowsOf coords) + 1) img).map
            (npSlice (intsMin (colsOf coords)) (intsMax (colsOf coords) + 1)) := hrowmem2
      obtain ⟨r0, hr0m, hr0e⟩ := List.mem_map.mp h2
      have h4 : ((bboxCrop img coords).getD r []).getD c 0 ∈
          npSlice (intsMin (colsOf coords)) (intsMax (colsOf coords) + 1) r0 := by
        rw [hr0e]
        exact getD_mem hc 0
      exact hpx r0 (mem_of_npSlice hr0m) _ (mem_of_npSlice h4)
    constructor
    · intro hins
      have hmask : fillPolyTest (polyT coords) ((c : ℤ), (r : ℤ)) = true :=
        fillPolyTest_of_inside (hIn.mpr hins)
      rw [hpixel, hmask, if_pos rfl, composite8_inside hv, hcut]
    · intro houts
      have hmask : fillPolyTest (polyT coords) ((c : ℤ), (r : ℤ)) = false :=
        fillPolyTest_of_outside (hOut.mpr houts)
      rw [hpixel, hmask]
      norm_num
      exact composite8_outside hcv

theorem size3_of_rect {w ch : ℕ} {img : List (List (List ℕ))}
    (h1 : IsRect w img) (h2 : IsRect3 ch img) :
    size3 img = img.length * (w * ch) := by
  induction img with
  | nil => simp [size3]
  | cons row t ih =>
    have hr2 : IsRect ch row := fun px hpx => h2 row (List.mem_cons_self row t) px hpx
    have hrow : size2 row = w * ch := by
      rw [size2_of_rect hr2, h1 row (List.mem_cons_self row t)]
    simp only [size3, List.map_cons, List.sum_cons] at *
    rw [hrow, ih (fun r hr => h1 r (List.mem_cons_of_mem row hr))
      (fun r hr => h2 r (List.mem_cons_of_mem row hr)), List.length_cons]
    ring

theorem bboxCrop_row_sub {α : Type} {img : List (List α)} {coords : List (ℤ × ℤ)}
    {row : List α} (h : row ∈ bboxCrop img coords) :
    ∃ r0 ∈ img, ∀ a ∈ row, a ∈ r0 := by
  have h2 : row ∈ (npSlice (intsMin (rowsOf coords)) (intsMax (rowsOf coords) + 1) img).map
      (npSlice (intsMin (colsOf coords)) (intsMax (colsOf coords) + 1)) := h
  obtain ⟨r0, hr0m, hr0e⟩ := List.mem_map.mp h2
  refine ⟨r0, mem_of_npSlice hr0m, fun a ha => ?_⟩
  rw [← hr0e] at ha
  exact mem_of_npSlice ha

theorem bboxCrop_rect3 {ch : ℕ} {img : List (List (List ℕ))} {coords : List (ℤ × ℤ)}
    (h : IsRect3 ch img) : IsRect3 ch (bboxCrop img coords) := by
  intro row hrow px hpx
  obtain ⟨r0, hr0img, hsub⟩ := bboxCrop_row_sub hrow
  exact h r0 hr0img px (hsub px hpx)

theorem bboxCrop_pix8C {img : List (List (List ℕ))} {coords : List (ℤ × ℤ)}
    (h : Pix8C img) : Pix8C (bboxCrop img coords) := by
  intro row hrow px hpx v hv
  obtain ⟨r0, hr0img, hsub⟩ := bboxCrop_row_sub hrow
  exact h r0 hr0img px (hsub px hpx) v hv

theorem bboxCropC_size3_ne {w ch : ℕ} {img : List (List (List ℕ))}
    {coords : List (ℤ × ℤ)} (hrect : IsRect w img) (hrect3 : IsRect3 ch img)
    (hch : 0 < ch) (hne : coords ≠ []) (hin : InBounds img.length w coords) :
    size3 (bboxCrop img coords) ≠ 0 := by
  obtain ⟨hlen, hrect2⟩ := bboxCrop_shape hrect hne hin
  rw [size3_of_rect hrect2 (bboxCrop_rect3 hrect3), hlen]
  exact Nat.mul_ne_zero (by omega) (Nat.mul_ne_zero (by omega) (by omega))

theorem cutoutCoreC_angle0 (img : List (List (List ℕ))) (coords : List (ℤ × ℤ))
    (mode : CutMode) (maxA : ℚ) (cval : Option (List ℕ)) (mbrA : ℚ)
    (hne : coords ≠ []) (hsz : size3 (bboxCrop img coords) ≠ 0) :
    cutoutCoreC img coords mode (some 0) maxA cval mbrA =
      .ok (npSlice2 0 (intsMax (rowsOf coords) - intsMin (rowsOf coords) + 1)
        0 (intsMax (colsOf coords) - intsMin (colsOf coords) + 1)
        (if mode = CutMode.POLYGON ∨ mode = CutMode.MBR then
          maskCompositeC
            (if mode = CutMode.MBR then mbrBoxPoints (polyT coords) else polyT coords)
            (cval.getD (autoCvalC (bboxCrop img coords))) (bboxCrop img coords)
        else bboxCrop img coords)) := by
  unfold bboxCrop at hsz ⊢
  unfold polyT
  cases coords with
  | nil => exact absurd rfl hne
  | cons c0 cs =>
    simp only [cutoutCoreC, resolveAngle]
    rw [if_neg hsz, if_neg (show ¬ (0 : ℚ) ≠ 0 from not_not_intro rfl)]
    simp only [List.map_map]
    rfl

theorem maskCompositeC_length (poly : List (ℤ × ℤ)) (cval : List ℕ)
    (cut : List (List (List ℕ))) : (maskCompositeC poly cval cut).length = cut.length := by
  simp [maskCompositeC]

theorem maskCompositeC_getD (poly : List (ℤ × ℤ)) (cval : List ℕ)
    (cut : List (List (List ℕ))) (r : ℕ) (hr : r < cut.length) :
    (maskCompositeC poly cval cut).getD r [] =
      (cut.getD r []).enum.map (fun c =>
        List.zipWith
          (fun v cv =>
            composite8 (if fillPolyTest poly ((c.1 : ℤ), (r : ℤ)) then 255 else 0) v cv)
          c.2 cval) := by
  unfold maskCompositeC
  rw [enum_map_getD _ _ _ _ [] hr]

theorem maskCompositeC_row_length (poly : List (ℤ × ℤ)) (cval : List ℕ)
    (cut : List (List (List ℕ))) (r : ℕ) (hr : r < cut.length) :
    ((maskCompositeC poly cval cut).getD r []).length = (cut.getD r []).length := by
  rw [maskCompositeC_getD _ _ _ _ hr]
  simp

theorem maskCompositeC_pixel (poly : List (ℤ × ℤ)) (cval : List ℕ)
    (cut : List (List (List ℕ))) (r c : ℕ) (hr : r < cut.length)
    (hc : c < (cut.getD r []).length) :
    ((maskCompositeC poly cval cut).getD r []).getD c [] =
      List.zipWith
        (fun v cv =>
          composite8 (if fillPolyTest poly ((c : ℤ), (r : ℤ)) then 255 else 0) v cv)
        ((cut.getD r []).getD c []) cval := by
  rw [maskCompositeC_getD _ _ _ _ hr, enum_map_getD _ _ _ _ [] hc]

theorem zipWith_composite_255 (px cval : List ℕ) (h : px.length = cval.length)
    (hv : ∀ v ∈ px, v < 256) :
    List.zipWith (fun v cv => composite8 255 v cv) px cval = px := by
  induction px generalizing cval with
  | nil => simp
  | cons v t ih =>
    cases cval with
    | nil => simp at h
    | cons cv ct =>
      simp only [List.zipWith_cons_cons]
      rw [composite8_inside (hv v (List.mem_cons_self v t)),
        ih ct (by simpa using h) (fun x hx => hv x (List.mem_cons_of_mem v hx))]

theorem zipWith_composite_0 (px cval : List ℕ) (h : px.length = cval.length)
    (hcv : ∀ v ∈ cval, v < 256) :
    List.zipWith (fun v cv => composite8 0 v cv) px cval = cval := by
  induction px generalizing cval with
  | nil =>
    cases cval with
    | nil => simp
    | cons cv ct => simp at h
  | cons v t ih =>
    cases cval with
    | nil => simp at h
    | cons cv ct =>
      simp only [List.zipWith_cons_cons]
      rw [composite8_outside (hcv cv (List.mem_cons_self cv ct)),
        ih ct (by simpa using h) (fun x hx => hcv x (List.mem_cons_of_mem cv hx))]

/-- The multi-channel half of claim C1 (helper lemma): the same masking, with
the source pixel and the fill compared per channel. -/
theorem polygonMaskColor {w ch : ℕ} (img : List (List (List ℕ)))
    (coords : List (ℤ × ℤ)) (maxA : ℚ) (cv : List ℕ) (mbrA : ℚ)
    (hrect : IsRect w img) (hrect3 : IsRect3 ch img) (hch : 0 < ch)
    (hne : coords ≠ []) (hin : InBounds img.length w coords)
    (hpx : Pix8C img) (hcvlen : cv.length = ch) (hcv : ∀ v ∈ cv, v < 256) :
    ∃ res, cutoutCoreC img coords CutMode.POLYGON (some 0) maxA (some cv) mbrA = .ok res ∧
      res.length = (intsMax (rowsOf coords) - intsMin (rowsOf coords)).toNat + 1 ∧
      IsRect ((intsMax (colsOf coords) - intsMin (colsOf coords)).toNat + 1) res ∧
      ∀ r c : ℕ, r < res.length → c < (res.getD r []).length →
        (StrictlyInside (polyXY coords)
            (intsMin (colsOf coords) + c, intsMin (rowsOf coords) + r) →
          (res.getD r []).getD c [] =
            (img.getD ((intsMin (rowsOf coords)).toNat + r) []).getD
              ((intsMin (colsOf coords)).toNat + c) []) ∧
        (StrictlyOutside (polyXY coords)
            (intsMin (colsOf coords) + c, intsMin (rowsOf coords) + r) →
          (res.getD r []).getD c [] = cv) := by
  have hsz := bboxCropC_size3_ne hrect hrect3 hch hne hin
  obtain ⟨hlen, hrect2⟩ := bboxCrop_shape hrect hne hin
  obtain ⟨hr0, hrm, hrh, hc0, hcm, hcw⟩ := bbox_bounds hne hin
  have hmain := cutoutCoreC_angle0 img coords CutMode.POLYGON maxA (some cv) mbrA hne hsz
  rw [if_pos (Or.inl rfl), if_neg (by simp), Option.getD_some] at hmain
  rw [npSlice2_full] at hmain
  rotate_left
  · rw [maskCompositeC_length, hlen]; push_cast; omega
  · intro row hrow
    obtain ⟨i, hi, rfl⟩ := List.mem_iff_getElem.mp hrow
    rw [maskCompositeC_length, hlen] at hi
    rw [← List.getD_eq_getElem _ [],
      maskCompositeC_row_length _ _ _ _ (by rw [hlen]; omega),
      hrect2 _ (getD_mem (by rw [hlen]; omega) ([] : List (List ℕ)))]
    push_cast
    omega
  refine ⟨_, hmain, ?_, ?_, ?_⟩
  · rw [maskCompositeC_length, hlen]
  · intro row hrow
    obtain ⟨i, hi, rfl⟩ := List.mem_iff_getElem.mp hrow
    rw [maskCompositeC_length] at hi
    rw [← List.getD_eq_getElem _ [], maskCompositeC_row_length _ _ _ _ hi]
    exact hrect2 _ (getD_mem hi [])
  · intro r c hr hc
    rw [maskCompositeC_length] at hr
    rw [maskCompositeC_row_length _ _ _ _ hr] at hc
    have hTmap : polyT coords =
        (polyXY coords).map (fun q =>
          (q.1 - intsMin (colsOf coords), q.2 - intsMin (rowsOf coords))) := by
      unfold polyT polyXY
      rw [List.map_map]
      rfl
    have hpoint1 : intsMin (colsOf coords) + (c : ℤ) - intsMin (colsOf coords) = c := by
      ring
    have hpoint2 : intsMin (rowsOf coords) + (r : ℤ) - intsMin (rowsOf coords) = r := by
      ring
    have hIn := StrictlyInside_shift (intsMin (colsOf coords)) (intsMin (rowsOf coords))
      (polyXY coords) (intsMin (colsOf coords) + c) (intsMin (rowsOf coords) + r)
    have hOut := StrictlyOutside_shift (intsMin (colsOf coords)) (intsMin (rowsOf coords))
      (polyXY coords) (intsMin (colsOf coords) + c) (intsMin (rowsOf coords) + r)
    rw [hpoint1, hpoint2, ← hTmap] at hIn hOut
    have hpixel := maskCompositeC_pixel (polyT coords) cv (bboxCrop img coords) r c hr hc
    have hcut := bboxCrop_getD hrect hne hin r c [] hr hc
    have hpxmem : ((bboxCrop img coords).getD r []).getD c [] ∈
        (bboxCrop img coords).getD r [] := getD_mem hc []
    have hrowmem : (bboxCrop img coords).getD r [] ∈ bboxCrop img coords :=
      getD_mem hr []
    have hpxlen : (((bboxCrop img coords).getD r []).getD c []).length = ch :=
      bboxCrop_rect3 hrect3 _ hrowmem _ hpxmem
    have hpx8 : ∀ v ∈ ((bboxCrop img coords).getD r []).getD c [], v < 256 :=
      fun v hv => bboxCrop_pix8C hpx _ hrowmem _ hpxmem v hv
    constructor
    · intro hins
      have hmask : fillPolyTest (polyT coords) ((c : ℤ), (r : ℤ)) = true :=
        fillPolyTest_of_inside (hIn.mpr hins)
      rw [hpixel, hmask]
      simp only [eq_self_iff_true, if_true]
      rw [zipWith_composite_255 _ _ (by rw [hpxlen, hcvlen]) hpx8, hcut]
    · intro houts
      have hmask : fillPolyTest (polyT coords) ((c : ℤ), (r : ℤ)) = false :=
        fillPolyTest_of_outside (hOut.mpr houts)
      rw [hpixel, hmask]
      simp only [Bool.false_eq_true, if_false]
      exact zipWith_composite_0 _ _ (by rw [hpxlen, hcvlen]) hcv

/-- Claim C1: mode POLYGON, angle 0, polygon fully inside the page image: the
result has the bounding-box dimensions; every result pixel strictly inside
the polygon (tested in page coordinates, polygon in (x, y) = (col, row)
order) equals the source pixel at the corresponding location and every result
pixel strictly outside the polygon equals the fill value — on single-channel
images, and per channel on multi-channel images. -/
theorem C1_polygon_mask :
    (∀ (w : ℕ) (img : List (List ℕ)) (coords : List (ℤ × ℤ)) (maxA : ℚ) (cv : ℕ)
      (mbrA : ℚ), IsRect w img → coords ≠ [] → InBounds img.length w coords →
      Pix8 img → cv < 256 →
      ∃ res, cutoutCore img coords CutMode.POLYGON (some 0) maxA (some cv) mbrA =
          .ok res ∧
        res.length = (intsMax (rowsOf coords) - intsMin (rowsOf coords)).toNat + 1 ∧
        IsRect ((intsMax (colsOf coords) - intsMin (colsOf coords)).toNat + 1) res ∧
        ∀ r c : ℕ, r < res.length → c < (res.getD r []).length →
          (StrictlyInside (polyXY coords)
              (intsMin (colsOf coords) + c, intsMin (rowsOf coords) + r) →
            (res.getD r []).getD c 0 =
              (img.getD ((intsMin (rowsOf coords)).toNat + r) []).getD
                ((intsMin (colsOf coords)).toNat + c) 0) ∧
          (StrictlyOutside (polyXY coords)
              (intsMin (colsOf coords) + c, intsMin (rowsOf coords) + r) →
            (res.getD r []).getD c 0 = cv)) ∧
    (∀ (w ch : ℕ) (img : List (List (List ℕ))) (coords : List (ℤ × ℤ)) (maxA : ℚ)
      (cv : List ℕ) (mbrA : ℚ), IsRect w img → IsRect3 ch img → 0 < ch →
      coords ≠ [] → InBounds img.length w coords → Pix8C img → cv.length = ch →
      (∀ v ∈ cv, v < 256) →
      ∃ res, cutoutCoreC img coords CutMode.POLYGON (some 0) maxA (some cv) mbrA =
          .ok res ∧
        res.length = (intsMax (rowsOf coords) - intsMin (rowsOf coords)).toNat + 1 ∧
        IsRect ((intsMax (colsOf coords) - intsMin (colsOf coords)).toNat + 1) res ∧
        ∀ r c : ℕ, r < res.length → c < (res.getD r []).length →
          (StrictlyInside (polyXY coords)
              (intsMin (colsOf coords) + c, intsMin (rowsOf coords) + r) →
            (res.getD r []).getD c [] =
              (img.getD ((intsMin (rowsOf coords)).toNat + r) []).getD
                ((intsMin (colsOf coords)).toNat + c) []) ∧
          (StrictlyOutside (polyXY coords)
              (intsMin (colsOf coords) + c, intsMin (rowsOf coords) + r) →
            (res.getD r []).getD c [] = cv)) :=
  ⟨fun _ img coords maxA cv mbrA h1 h2 h3 h4 h5 =>
      polygonMaskGray img coords maxA cv mbrA h1 h2 h3 h4 h5,
   fun _ _ img coords maxA cv mbrA h1 h2 h3 h4 h5 h6 h7 h8 =>
      polygonMaskColor img coords maxA cv mbrA h1 h2 h3 h4 h5 h6 h7 h8⟩

/-- Witness for C1: a right triangle in a 5 × 5 image; the interior pixel
(1,1) keeps its source value 7, the exterior pixel (3,3) takes the fill 200. -/
theorem C1_witness :
    ∃ res, cutoutCore [[1,2,3,4,5],[6,7,8,9,10],[11,12,13,14,15],[16,17,18,19,20],
        [21,22,23,24,25]] [((0:ℤ),(0:ℤ)), ((0:ℤ),(4:ℤ)), ((4:ℤ),(0:ℤ))]
        CutMode.POLYGON (some 0) 0 (some 200) 0 = .ok res ∧
      (res.getD 1 []).getD 1 0 = 7 ∧ (res.getD 3 []).getD 3 0 = 200 := by
  obtain ⟨res, hok, hlen, hrect, hpix⟩ :=
    C1_polygon_mask.1 5 [[1,2,3,4,5],[6,7,8,9,10],[11,12,13,14,15],[16,17,18,19,20],
      [21,22,23,24,25]] [((0:ℤ),(0:ℤ)), ((0:ℤ),(4:ℤ)), ((4:ℤ),(0:ℤ))] 0 200 0
      (by decide) (by decide) (by decide) (by decide) (by decide)
  have hr1 : (1 : ℕ) < res.length := by rw [hlen]; decide
  have hc1 : (1 : ℕ) < (res.getD 1 []).length := by
    rw [hrect _ (getD_mem hr1 [])]; decide
  have hr3 : (3 : ℕ) < res.length := by rw [hlen]; decide
  have hc3 : (3 : ℕ) < (res.getD 3 []).length := by
    rw [hrect _ (getD_mem hr3 [])]; decide
  refine ⟨res, hok, ?_, (hpix 3 3 hr3 hc3).2 (by decide)⟩
  rw [(hpix 1 1 hr1 hc1).1 (by decide)]
  decide

theorem pyTrunc_intCast (n : ℤ) : pyTrunc ((n : ℚ)) = n := by
  unfold pyTrunc
  rw [Rat.num_intCast, Rat.den_intCast]
  simp

theorem pyTrunc_one_mul (n : ℤ) : pyTrunc (1 * (n : ℚ)) = n := by
  rw [one_mul, pyTrunc_intCast]

theorem parsePair_scale (scale : ℚ) (tok : List Char) (b : ℤ × ℤ)
    (h : parsePair 1 tok = .ok b) :
    parsePair scale tok =
      .ok (pyTrunc (scale * (b.1 : ℚ)), pyTrunc (scale * (b.2 : ℚ))) := by
  unfold parsePair at h ⊢
  cases hsp : splitComma tok with
  | nil => rw [hsp] at h; simp at h
  | cons c0 rest =>
    cases rest with
    | nil => rw [hsp] at h; simp at h
    | cons c1 rest2 =>
      rw [hsp] at h
      dsimp only at h ⊢
      cases hb : parseInt c1 with
      | error e => rw [hb] at h; simp at h
      | ok bv =>
        cases ha : parseInt c0 with
        | error e => rw [hb, ha] at h; simp at h
        | ok av =>
          rw [hb, ha] at h
          dsimp only at h ⊢
          simp only [Except.ok.injEq] at h
          subst h
          dsimp only
          rw [pyTrunc_one_mul, pyTrunc_one_mul]

theorem parsePairs_scale (scale : ℚ) (toks : List (List Char)) (ps : List (ℤ × ℤ))
    (h : parsePairs 1 toks = .ok ps) :
    parsePairs scale toks = .ok (ps.map (fun p =>
      (pyTrunc (scale * (p.1 : ℚ)), pyTrunc (scale * (p.2 : ℚ))))) := by
  induction toks generalizing ps with
  | nil =>
    simp only [parsePairs, Except.ok.injEq] at h
    rw [← h]
    rfl
  | cons t ts ih =>
    simp only [parsePairs] at h ⊢
    cases hp : parsePair 1 t with
    | error e => rw [hp] at h; simp at h
    | ok p =>
      cases hts : parsePairs 1 ts with
      | error e => rw [hp, hts] at h; simp at h
      | ok ps2 =>
        rw [hp, hts] at h
        simp only [Except.ok.injEq] at h
        rw [parsePair_scale scale t p hp, ih ps2 hts, ← h]
        rfl

/-- Claim C4 (amended): cutout parses the polygon string as whitespace
separated "col,row" integer pairs, multiplies each coordinate by the scale
factor and TRUNCATES the product toward zero (Python int conversion — not
rounding to the nearest integer), storing the point with coordinate order
swapped from (col,row) to (row,col): a token whose components parse as col a
and row b yields the point (trunc(scale·b), trunc(scale·a)), and the scale-s
parse of a whole string is its scale-1 parse mapped through the truncating
scale. -/
theorem C4_parse_scale_trunc (s : String) (scale : ℚ) (ps : List (ℤ × ℤ)) :
    (∀ (tok c0 c1 : List Char) (rest : List (List Char)) (a b : ℤ),
      splitComma tok = c0 :: c1 :: rest → parseInt c0 = .ok a → parseInt c1 = .ok b →
      parsePair scale tok =
        .ok (pyTrunc (scale * (b : ℚ)), pyTrunc (scale * (a : ℚ)))) ∧
    (parseCoords 1 s = .ok ps →
      parseCoords scale s = .ok (ps.map (fun p =>
        (pyTrunc (scale * (p.1 : ℚ)), pyTrunc (scale * (p.2 : ℚ)))))) := by
  constructor
  · intro tok c0 c1 rest a b hsp ha hb
    unfold parsePair
    simp only [hsp, ha, hb]
  · intro h
    exact parsePairs_scale scale (splitWs s.data) ps h

/-- Claim C4 counterexample: the token "3,0" (col 3, row 0) at scale 1/2
parses to the point (0, 1) — truncation of 3/2 toward zero — whereas rounding
3/2 to the nearest integer gives 2; the parse does not round to nearest. -/
theorem C4_counterexample :
    parseCoords (1/2) ("3,0") = .ok [((0:ℤ), (1:ℤ))] ∧
    round ((1 : ℚ)/2 * 3) = 2 ∧ ((1:ℤ)) ≠ 2 := by
  refine ⟨by with_unfolding_all decide, ?_, by decide⟩
  norm_num [round_eq]

/-- Witness for C4 on the string "3,0 4,10" at scale 1/2. -/
theorem C4_witness :
    parsePair (1/2) (("3,0").data) = .ok ((0:ℤ), (1:ℤ)) ∧
    parseCoords (1/2) ("3,0 4,10") = .ok [((0:ℤ),(1:ℤ)), ((5:ℤ),(2:ℤ))] := by
  constructor
  · have h := (C4_parse_scale_trunc ("") (1/2) []).1 (("3,0").data) ['3'] ['0'] [] 3 0
      (by decide) (by decide) (by decide)
    rw [h]
    with_unfolding_all decide
  · have h := (C4_parse_scale_trunc ("3,0 4,10") (1/2)
      [((0:ℤ),(3:ℤ)), ((10:ℤ),(4:ℤ))]).2 (by with_unfolding_all decide)
    rw [h]
    with_unfolding_all decide

/-- Claim C8: with predictions arriving as (pageA,id1,foo), (pageA,id2,bar),
(pageB,id3,baz) followed by one final store call, no flush happens while
pageA's samples arrive, exactly one flush of pageA happens when the pageB
sample arrives, and exactly one final flush of pageB happens; pageA's
serialized tree carries foo and bar at the configured text index and pageB's
carries only baz. -/
theorem C8_sequential_writeback :
    (storeTextPrediction 0 (storeTextPrediction 0
        ⟨[⟨("A"), [⟨("id1"), []⟩, ⟨("id2"), []⟩]⟩, ⟨("B"), [⟨("id3"), []⟩]⟩], none, []⟩
        ("A") ("id1") ("foo")) ("A") ("id2") ("bar")).flushed = [] ∧
    (storeTextPrediction 0 (storeTextPrediction 0 (storeTextPrediction 0
        ⟨[⟨("A"), [⟨("id1"), []⟩, ⟨("id2"), []⟩]⟩, ⟨("B"), [⟨("id3"), []⟩]⟩], none, []⟩
        ("A") ("id1") ("foo")) ("A") ("id2") ("bar")) ("B") ("id3") ("baz")).flushed =
      [⟨("A"), [⟨("id1"), [⟨some 0, some (some ("foo"))⟩]⟩,
        ⟨("id2"), [⟨some 0, some (some ("bar"))⟩]⟩]⟩] ∧
    (storeFinal (storeTextPrediction 0 (storeTextPrediction 0 (storeTextPrediction 0
        ⟨[⟨("A"), [⟨("id1"), []⟩, ⟨("id2"), []⟩]⟩, ⟨("B"), [⟨("id3"), []⟩]⟩], none, []⟩
        ("A") ("id1") ("foo")) ("A") ("id2") ("bar")) ("B") ("id3") ("baz"))).flushed =
      [⟨("A"), [⟨("id1"), [⟨some 0, some (some ("foo"))⟩]⟩,
        ⟨("id2"), [⟨some 0, some (some ("bar"))⟩]⟩]⟩,
       ⟨("B"), [⟨("id3"), [⟨some 0, some (some ("baz"))⟩]⟩]⟩] := by
  refine ⟨by decide, by decide, by decide⟩

/-- Claim C10 at its failing input: with pad = [1] configured and a single
line whose polygon covers rows 0–1 and columns 0–1 of a 3 × 3 page (declared
width 3, orientation 0), the loop yields the UNPADDED 2 × 2 cutout result
while np.pad is applied to the page image variable instead (5 × 5 after
padding, feeding any later line); so the yielded image is not the cutout
output padded by 1 on each side, and the page image binding changes. -/
theorem C10_pad_bug :
    loadSamples CutMode.BOX (some [1]) [[1,2,3],[4,5,6],[7,8,9]]
        [⟨("0,0 1,0 1,1 0,1"), 0, 3⟩] =
      ([.ok [[1,2],[4,5]]],
        [[9,9,9,9,9],[9,1,2,3,9],[9,4,5,6,9],[9,7,8,9,9],[9,9,9,9,9]]) ∧
    (npPad2 (padWidths [1]) 9 [[1,2],[4,5]]).length = 4 ∧
    ([[1,2],[4,5]] : List (List ℕ)).length = 2 ∧
    ([[9,9,9,9,9],[9,1,2,3,9],[9,4,5,6,9],[9,7,8,9,9],[9,9,9,9,9]] : List (List ℕ)) ≠
      [[1,2,3],[4,5,6],[7,8,9]] := by
  exact ⟨by with_unfolding_all decide, by decide, by decide, by decide⟩

theorem le_foldr_max (l : List ℕ) (v : ℕ) (h : v ∈ l) : v ≤ l.foldr max 0 := by
  induction l with
  | nil => cases h
  | cons x t ih =>
    rcases List.mem_cons.mp h with rfl | h2
    · exact le_max_left v (t.foldr max 0)
    · exact le_trans (ih h2) (le_max_right x _)

theorem foldr_max_mem (l : List ℕ) (h : l ≠ []) : l.foldr max 0 ∈ l := by
  induction l with
  | nil => exact absurd rfl h
  | cons x t ih =>
    cases t with
    | nil =>
      simp only [List.foldr_cons, List.foldr_nil, Nat.max_zero]
      exact List.mem_cons_self x []
    | cons y t2 =>
      rcases max_choice x ((y :: t2).foldr max 0) with hm | hm
      · rw [List.foldr_cons, hm]
        exact List.mem_cons_self _ _
      · rw [List.foldr_cons, hm]
        exact List.mem_cons_of_mem x (ih (by simp))

theorem amax2_le {cut : List (List ℕ)} {row : List ℕ} {v : ℕ}
    (hr : row ∈ cut) (hv : v ∈ row) : v ≤ amax2 cut := by
  unfold amax2
  exact le_trans (le_foldr_max row v hv)
    (le_foldr_max _ _ (List.mem_map_of_mem _ hr))

theorem amax2_mem {cut : List (List ℕ)} (hne : cut ≠ [])
    (hrows : ∀ row ∈ cut, row ≠ []) : ∃ row ∈ cut, amax2 cut ∈ row := by
  unfold amax2
  have h1 : (cut.map (fun row => row.foldr max 0)).foldr max 0 ∈
      cut.map (fun row => row.foldr max 0) :=
    foldr_max_mem _ (by simpa using hne)
  obtain ⟨row, hrow, heq⟩ := List.mem_map.mp h1
  refine ⟨row, hrow, ?_⟩
  rw [← heq]
  exact foldr_max_mem row (hrows row hrow)

theorem mem_enum_spec {α : Type} (d : α) {l : List α} {x : ℕ × α} (h : x ∈ l.enum) :
    x.1 < l.length ∧ l.getD x.1 d = x.2 := by
  obtain ⟨k, hk, he⟩ := List.mem_iff_getElem.mp h
  have hk2 : k < l.length := by simpa using hk
  rw [List.getElem_enum] at he
  subst he
  exact ⟨hk2, List.getD_eq_getElem _ _ hk2⟩

theorem getD_mem_enum {α : Type} (d : α) {l : List α} {i : ℕ} (h : i < l.length) :
    (i, l.getD i d) ∈ l.enum := by
  rw [List.getD_eq_getElem _ _ h]
  have h2 : i < l.enum.length := by simpa using h
  have h3 := List.getElem_mem h2
  rw [List.getElem_enum] at h3
  exact h3

theorem innerFold_spec (r : ℕ) (l : List (ℕ × List ℕ)) (init : (ℕ × ℕ) × ℚ) :
    init.2 ≤ (l.foldl (innerStep r) init).2 ∧
    (∀ x ∈ l, pixMean x.2 ≤ (l.foldl (innerStep r) init).2) ∧
    (l.foldl (innerStep r) init = init ∨
      ∃ x ∈ l, l.foldl (innerStep r) init = ((r, x.1), pixMean x.2)) := by
  induction l generalizing init with
  | nil => exact ⟨le_refl _, fun x hx => absurd hx (by simp), Or.inl rfl⟩
  | cons x t ih =>
    obtain ⟨ih1, ih2, ih3⟩ := ih (innerStep r init x)
    have hstep : init.2 ≤ (innerStep r init x).2 := by
      unfold innerStep
      split
      · next hgt => exact le_of_lt hgt
      · exact le_refl _
    have hstepx : pixMean x.2 ≤ (innerStep r init x).2 := by
      unfold innerStep
      split
      · exact le_refl _
      · next hng => exact le_of_not_lt hng
    refine ⟨le_trans hstep ih1, ?_, ?_⟩
    · intro y hy
      rcases List.mem_cons.mp hy with rfl | hy2
      · exact le_trans hstepx ih1
      · exact ih2 y hy2
    · rcases ih3 with h3 | ⟨y, hy, h3⟩
      · rw [List.foldl_cons, h3]
        unfold innerStep
        split
        · exact Or.inr ⟨x, List.mem_cons_self x t, rfl⟩
        · exact Or.inl rfl
      · exact Or.inr ⟨y, List.mem_cons_of_mem x hy, by rw [List.foldl_cons, h3]⟩

theorem outerFold_spec (l : List (ℕ × List (List ℕ))) (init : (ℕ × ℕ) × ℚ) :
    init.2 ≤ (l.foldl outerStep init).2 ∧
    (∀ rr ∈ l, ∀ c ∈ rr.2.enum, pixMean c.2 ≤ (l.foldl outerStep init).2) ∧
    (l.foldl outerStep init = init ∨
      ∃ rr ∈ l, ∃ c ∈ rr.2.enum, l.foldl outerStep init = ((rr.1, c.1), pixMean c.2)) := by
  induction l generalizing init with
  | nil => exact ⟨le_refl _, fun rr hrr => absurd hrr (by simp), Or.inl rfl⟩
  | cons x t ih =>
    obtain ⟨ih1, ih2, ih3⟩ := ih (outerStep init x)
    obtain ⟨hs1, hs2, hs3⟩ := innerFold_spec x.1 x.2.enum init
    refine ⟨le_trans hs1 ih1, ?_, ?_⟩
    · intro rr hrr c hc
      rcases List.mem_cons.mp hrr with rfl | hrr2
      · exact le_trans (hs2 c hc) ih1
      · exact ih2 rr hrr2 c hc
    · rcases ih3 with h3 | ⟨rr, hrr, c, hc, h3⟩
      · rw [List.foldl_cons, h3]
        rcases hs3 with h4 | ⟨c, hc, h4⟩
        · exact Or.inl h4
        · exact Or.inr ⟨x, List.mem_cons_self x t, c, hc, h4⟩
      · exact Or.inr ⟨rr, List.mem_cons_of_mem x hrr, c, hc,
          by rw [List.foldl_cons, h3]⟩

theorem argmaxMean_spec {w : ℕ} (cut : List (List (List ℕ)))
    (hrect : IsRect w cut) (hw : 0 < w) (hne : cut ≠ []) :
    (argmaxMean cut).1 < cut.length ∧
    (argmaxMean cut).2 < (cut.getD (argmaxMean cut).1 []).length ∧
    pixMean (autoCvalC cut) =
      (cut.enum.foldl outerStep ((0, 0), pixMean ((cut.headD []).headD []))).2 ∧
    ∀ r c : ℕ, r < cut.length → c < (cut.getD r []).length →
      pixMean ((cut.getD r []).getD c []) ≤ pixMean (autoCvalC cut) := by
  have hne2 : 0 < cut.length := List.length_pos.mpr hne
  have hrow0 : (cut.getD 0 []).length = w := hrect _ (getD_mem hne2 [])
  have hhead : cut.headD [] = cut.getD 0 [] := by
    cases cut with
    | nil => exact absurd rfl hne
    | cons a t => rfl
  have hhead2 : (cut.headD []).headD [] = (cut.getD 0 []).getD 0 [] := by
    rw [hhead]
    cases cut.getD 0 [] with
    | nil => rfl
    | cons a t => rfl
  obtain ⟨ho1, ho2, ho3⟩ :=
    outerFold_spec cut.enum ((0, 0), pixMean ((cut.headD []).headD []))
  have hmax : ∀ r c : ℕ, r < cut.length → c < (cut.getD r []).length →
      pixMean ((cut.getD r []).getD c []) ≤
        (cut.enum.foldl outerStep ((0, 0), pixMean ((cut.headD []).headD []))).2 := by
    intro r c hr hc
    exact ho2 (r, cut.getD r []) (getD_mem_enum [] hr)
      (c, (cut.getD r []).getD c []) (getD_mem_enum [] hc)
  rcases ho3 with hcase | ⟨rr, hrr, c, hc, hcase⟩
  · have hargmax : argmaxMean cut = (0, 0) := by
      unfold argmaxMean
      rw [hcase]
    have hauto : autoCvalC cut = (cut.getD 0 []).getD 0 [] := by
      unfold autoCvalC
      rw [hargmax]
    have hfold2 :
        (cut.enum.foldl outerStep ((0, 0), pixMean ((cut.headD []).headD []))).2
          = pixMean (autoCvalC cut) := by
      rw [hcase, hauto, hhead2]
    refine ⟨by rw [hargmax]; exact hne2, ?_, hfold2.symm, ?_⟩
    · rw [hargmax]
      dsimp only
      rw [hrow0]
      exact hw
    · intro r c hr hc
      rw [← hfold2]
      exact hmax r c hr hc
  · obtain ⟨hrr1, hrr2⟩ := mem_enum_spec [] hrr
    obtain ⟨hc1, hc2⟩ := mem_enum_spec [] hc
    have hargmax : argmaxMean cut = (rr.1, c.1) := by
      unfold argmaxMean
      rw [hcase]
    have hauto : autoCvalC cut = c.2 := by
      unfold autoCvalC
      rw [hargmax]
      dsimp only
      rw [hrr2, hc2]
    have hfold2 :
        (cut.enum.foldl outerStep ((0, 0), pixMean ((cut.headD []).headD []))).2
          = pixMean (autoCvalC cut) := by
      rw [hcase, hauto]
    refine ⟨by rw [hargmax]; exact hrr1, ?_, hfold2.symm, ?_⟩
    · rw [hargmax]
      dsimp only
      rw [hrr2]
      exact hc1
    · intro r c2 hr hc2b
      rw [← hfold2]
      exact hmax r c2 hr hc2b

/-- Claim C6: with no explicit fill value, cutout derives the fill from the
cropped, unrotated region: on a single-channel image it uses the maximum
pixel value of the crop (running with None equals running with that maximum
supplied, the maximum is attained by a crop pixel, and it bounds every crop
pixel); on a multi-channel image it uses the channel vector of the (first,
row-major) pixel whose channel mean is maximal (running with None equals
running with that vector supplied, the selected position is a crop pixel, and
its channel mean bounds every crop pixel's channel mean). -/
theorem C6_auto_fill :
    (∀ (w : ℕ) (img : List (List ℕ)) (coords : List (ℤ × ℤ)) (mode : CutMode)
      (maxA mbrA : ℚ), IsRect w img → coords ≠ [] → InBounds img.length w coords →
      (cutoutCore img coords mode (some 0) maxA none mbrA =
        cutoutCore img coords mode (some 0) maxA
          (some (amax2 (bboxCrop img coords))) mbrA) ∧
      (∃ row ∈ bboxCrop img coords, amax2 (bboxCrop img coords) ∈ row) ∧
      (∀ row ∈ bboxCrop img coords, ∀ v ∈ row,
        v ≤ amax2 (bboxCrop img coords))) ∧
    (∀ (w ch : ℕ) (img : List (List (List ℕ))) (coords : List (ℤ × ℤ))
      (mode : CutMode) (maxA mbrA : ℚ), IsRect w img → IsRect3 ch img → 0 < ch →
      coords ≠ [] → InBounds img.length w coords →
      (cutoutCoreC img coords mode (some 0) maxA none mbrA =
        cutoutCoreC img coords mode (some 0) maxA
          (some (autoCvalC (bboxCrop img coords))) mbrA) ∧
      ((argmaxMean (bboxCrop img coords)).1 < (bboxCrop img coords).length ∧
        (argmaxMean (bboxCrop img coords)).2 <
          ((bboxCrop img coords).getD (argmaxMean (bboxCrop img coords)).1 []).length) ∧
      (∀ r c : ℕ, r < (bboxCrop img coords).length →
        c < ((bboxCrop img coords).getD r []).length →
        pixMean (((bboxCrop img coords).getD r []).getD c []) ≤
          pixMean (autoCvalC (bboxCrop img coords)))) := by
  constructor
  · intro w img coords mode maxA mbrA hrect hne hin
    have hsz := bboxCrop_size2_ne hrect hne hin
    obtain ⟨hlen, hrect2⟩ := bboxCrop_shape hrect hne hin
    refine ⟨?_, ?_, fun row hrow v hv => amax2_le hrow hv⟩
    · rw [cutoutCore_angle0 img coords mode maxA none mbrA hne hsz,
        cutoutCore_angle0 img coords mode maxA (some (amax2 (bboxCrop img coords)))
          mbrA hne hsz]
      rfl
    · refine amax2_mem (by rw [← List.length_pos, hlen]; omega) ?_
      intro row hrow
      have := hrect2 row hrow
      intro hempty
      rw [hempty] at this
      simp at this
  · intro w ch img coords mode maxA mbrA hrect hrect3 hch hne hin
    have hsz := bboxCropC_size3_ne hrect hrect3 hch hne hin
    obtain ⟨hlen, hrect2⟩ := bboxCrop_shape hrect hne hin
    have hwpos : 0 < (intsMax (colsOf coords) - intsMin (colsOf coords)).toNat + 1 := by
      omega
    have hcne : bboxCrop img coords ≠ [] := by
      rw [← List.length_pos, hlen]
      omega
    obtain ⟨ha1, ha2, ha3, ha4⟩ :=
      @argmaxMean_spec ((intsMax (colsOf coords) - intsMin (colsOf coords)).toNat + 1)
        (bboxCrop img coords) hrect2 hwpos hcne
    refine ⟨?_, ⟨ha1, ha2⟩, ha4⟩
    rw [cutoutCoreC_angle0 img coords mode maxA none mbrA hne hsz,
      cutoutCoreC_angle0 img coords mode maxA
        (some (autoCvalC (bboxCrop img coords))) mbrA hne hsz]
    rfl

/-- Witness for C6: the single-channel crop of a 2 × 2 image has auto fill 9
(its maximum), and a 2-channel image selects the channel vector of the pixel
with the larger mean. -/
theorem C6_witness :
    (cutoutCore [[3,9],[4,1]] [((0:ℤ),(0:ℤ)), ((1:ℤ),(1:ℤ))] CutMode.POLYGON
        (some 0) 0 none 0 =
      cutoutCore [[3,9],[4,1]] [((0:ℤ),(0:ℤ)), ((1:ℤ),(1:ℤ))] CutMode.POLYGON
        (some 0) 0 (some (amax2 (bboxCrop [[3,9],[4,1]]
          [((0:ℤ),(0:ℤ)), ((1:ℤ),(1:ℤ))]))) 0) ∧
    (cutoutCoreC [[[1,2],[5,6]],[[3,0],[2,2]]] [((0:ℤ),(0:ℤ)), ((1:ℤ),(1:ℤ))]
        CutMode.POLYGON (some 0) 0 none 0 =
      cutoutCoreC [[[1,2],[5,6]],[[3,0],[2,2]]] [((0:ℤ),(0:ℤ)), ((1:ℤ),(1:ℤ))]
        CutMode.POLYGON (some 0) 0 (some (autoCvalC (bboxCrop [[[1,2],[5,6]],[[3,0],[2,2]]]
          [((0:ℤ),(0:ℤ)), ((1:ℤ),(1:ℤ))]))) 0) :=
  ⟨(C6_auto_fill.1 2 [[3,9],[4,1]] [((0:ℤ),(0:ℤ)), ((1:ℤ),(1:ℤ))] CutMode.POLYGON 0 0
      (by decide) (by decide) (by decide)).1,
   (C6_auto_fill.2 2 2 [[[1,2],[5,6]],[[3,0],[2,2]]] [((0:ℤ),(0:ℤ)), ((1:ℤ),(1:ℤ))]
      CutMode.POLYGON 0 0 (by decide) (by decide) (by decide) (by decide) (by decide)).1⟩

end PageXML
